import Mathlib

/-! Mini-Shell, the command executor of `cmd.c`.

A shallow embedding of `src/cmd.c`.  The C functions become state-passing
functions on a `World`: the calling process (descriptor table, environment,
working directory), the part of the operating system the code talks to, and
a trace of the calls that were made.  A forked child runs on a copy of the
per-process part and hands the shared part back to its parent.
-/

namespace MiniShell

/-! ## Constants and data model -/

/-- Constants of `cmd.h` and `parser.h` that `cmd.c` uses.  The headers are not
part of the sources at hand, so their values are parameters of the model. -/
structure Consts where
  SHELL_EXIT : Int
  IO_OUT_APPEND : Int
  IO_ERR_APPEND : Int
deriving DecidableEq, Repr

/-- The flag sets `cmd.c` passes to `open`. -/
inductive OpenMode
  /-- Flag set `O_RDONLY`. -/
  | rdonly
  /-- Flag set `O_WRONLY` (used on the FIFO). -/
  | wronly
  /-- Flag set `O_WRONLY | O_CREAT | O_TRUNC`. -/
  | trunc
  /-- Flag set `O_WRONLY | O_CREAT | O_APPEND`. -/
  | append
deriving DecidableEq, Repr

/-- What a file descriptor refers to. -/
inductive Stream
  /-- A stream inherited from whoever started the shell. -/
  | tty (n : Nat)
  /-- A file opened by this program. -/
  | file (path : String) (mode : OpenMode)
deriving DecidableEq, Repr

/-- The status word filled in by `wait` and `waitpid`. -/
inductive WaitStatus
  /-- Normal termination; `code` is the low byte handed to `exit`. -/
  | exited (code : Nat)
  /-- Termination by a signal. -/
  | signaled
deriving DecidableEq, Repr

/-- What the next call of `fork` does. -/
inductive ForkResult
  /-- The call returns `-1`. -/
  | failed
  /-- A child is created and runs until it terminates by itself. -/
  | child
  /-- A child is created and is terminated by a signal. -/
  | killed
deriving DecidableEq, Repr

/-- The calls recorded in the trace. -/
inductive Event
  /-- Event: `parse_command` reached the leaf with this verb. -/
  | leaf (verb : String)
  /-- Event: `fork` created a process. -/
  | fork
  /-- Event: `open(path, mode)` was called. -/
  | opened (path : String) (mode : OpenMode)
  /-- Event: `execv(path, argv)` was called. -/
  | execv (path : String) (argv : List String)
  /-- Event: `execvp(file, argv)` was called. -/
  | execvp (file : String) (argv : List String)
  /-- Event: a diagnostic was written with `fprintf(stderr, ...)`. -/
  | stderr (msg : String)
  /-- Event: `setenv(name, value, 1)` was called. -/
  | setenv (name value : Option String)
  /-- Event: `chdir(path)` was called. -/
  | chdir (path : String)
deriving DecidableEq, Repr

/-- Modelled from the spec: the type `simple_command_t` of `parser.h`, which
is not among the sources.  A leaf of the command tree: the verb, the
argument words and up to three redirection targets, every word already
expanded to text (`get_word` of it), and the flag word `io_flags`. -/
structure simple_command_t where
  verb : String
  params : List String
  in_ : Option String
  out : Option String
  err : Option String
  io_flags : Int
deriving DecidableEq, Repr

/-- Modelled from the spec: the type `operator_t` of `parser.h`, which is
not among the sources, with the names `parse_command` uses.  The operators
of an inner node; `OP_NONE`, which marks a leaf, is the constructor `leaf`
of `command_t`. -/
inductive operator_t
  | OP_SEQUENTIAL
  | OP_PARALLEL
  | OP_CONDITIONAL_ZERO
  | OP_CONDITIONAL_NZERO
  | OP_PIPE
  | OP_DUMMY
deriving DecidableEq, Repr

/-- Modelled from the spec: the type `command_t` of `parser.h`, which is not
among the sources.  The command tree: `op == OP_NONE` with `scmd`, or an
operator with `cmd1` and `cmd2`. -/
inductive command_t
  | leaf (scmd : simple_command_t)
  | node (op : operator_t) (cmd1 cmd2 : command_t)
deriving DecidableEq, Repr

/-- The state the code runs in.  `fds`, `env`, `cwd`, `forks` and `waits`
belong to the running process; the other fields are shared by all processes. -/
structure World where
  /-- Descriptor table: entry `n` is what descriptor `n` refers to. -/
  fds : List (Option Stream)
  /-- Environment variables. -/
  env : List (String × String)
  /-- Working directory. -/
  cwd : String
  /-- Outcomes of the coming calls of `fork` in this process (none left: a
  child is created). -/
  forks : List ForkResult
  /-- Outcomes of the coming calls of `wait` in this process: `true` when the
  call returns `-1` (none left: it succeeds). -/
  waits : List Bool
  /-- Paths on which `open` fails. -/
  unopenable : List String
  /-- The directories `chdir` can enter. -/
  dirs : List String
  /-- Executable files, by absolute path, with how a run of each ends. -/
  executables : List (String × WaitStatus)
  /-- Names of the FIFOs that exist. -/
  fifos : List String
  /-- Whether `mkfifo` fails with an error other than `EEXIST`. -/
  mkfifo_error : Bool
  /-- Whether `setenv` runs out of memory. -/
  setenv_error : Bool
  /-- The calls made so far, oldest first. -/
  trace : List Event
deriving DecidableEq, Repr

def STDIN_FILENO : Nat := 0
def STDOUT_FILENO : Nat := 1
def STDERR_FILENO : Nat := 2

/-! ## The operating system calls used by `cmd.c` -/

/-- Append an event to the trace. -/
def World.log (w : World) (e : Event) : World :=
  { w with trace := w.trace ++ [e] }

/-- The stream descriptor `fd` refers to, `none` when it is closed. -/
def get_fd (fds : List (Option Stream)) (fd : Nat) : Option Stream :=
  (fds.get? fd).join

/-- The table with descriptor `fd` set to `s`. -/
def set_fd : List (Option Stream) → Nat → Option Stream → List (Option Stream)
  | [], 0, s => [s]
  | [], n + 1, s => none :: set_fd [] n s
  | _ :: t, 0, s => s :: t
  | h :: t, n + 1, s => h :: set_fd t n s

/-- The lowest descriptor that is not in use. -/
def lowest_free : List (Option Stream) → Nat
  | [] => 0
  | none :: _ => 0
  | some _ :: t => lowest_free t + 1

/-- The call `open(path, mode, 0777)`: `none` for `-1`, else the lowest free
descriptor, now referring to the file. -/
def sys_open (path : String) (mode : OpenMode) (w : World) : Option Nat × World :=
  let w := w.log (.opened path mode)
  if path ∈ w.unopenable then (none, w)
  else
    let fd := lowest_free w.fds
    (some fd, { w with fds := set_fd w.fds fd (some (.file path mode)) })

/-- The call `dup(fd)`: `none` for `-1` (the descriptor is closed). -/
def dup (fd : Nat) (w : World) : Option Nat × World :=
  match get_fd w.fds fd with
  | none => (none, w)
  | some s =>
    let new := lowest_free w.fds
    (some new, { w with fds := set_fd w.fds new (some s) })

/-- The call `dup2(old, new)`; nothing changes when `old` is `-1` or closed. -/
def dup2 (old : Option Nat) (new : Nat) (w : World) : World :=
  match old with
  | none => w
  | some o =>
    match get_fd w.fds o with
    | none => w
    | some s => { w with fds := set_fd w.fds new (some s) }

/-- The call `close(fd)`; nothing changes when `fd` is `-1`. -/
def close (fd : Option Nat) (w : World) : World :=
  match fd with
  | none => w
  | some f => { w with fds := set_fd w.fds f none }

/-- The call `fprintf(stderr, msg)`. -/
def fprintf_stderr (msg : String) (w : World) : World :=
  w.log (.stderr msg)

/-- The call `chdir(path)`: `true` for `-1`. -/
def chdir (path : String) (w : World) : Bool × World :=
  let w := w.log (.chdir path)
  if path ∈ w.dirs then (false, { w with cwd := path }) else (true, w)

/-- The status of a process that calls `exit(err)`: the low byte of `err`. -/
def exit (err : Int) : WaitStatus :=
  .exited (err % 256).toNat

def WIFEXITED : WaitStatus → Bool
  | .exited _ => true
  | .signaled => false

def WEXITSTATUS : WaitStatus → Int
  | .exited code => code % 256
  | .signaled => 0

/-- The world a new child starts in: a copy of the caller, after the `fork`
that created it. -/
def child_world (w : World) : World :=
  { w with forks := w.forks.tail }.log .fork

/-- The call `fork()`.  On failure the result is `none` (`-1`).  Otherwise the
child runs `child` on its copy of the caller and the result is the status a
later `wait` for it yields; the caller keeps its own descriptors,
environment and directory and sees the shared part as the child left it. -/
def fork (child : World → WaitStatus × World) (w : World) :
    Option WaitStatus × World :=
  match w.forks.head? with
  | some .failed => (none, { w with forks := w.forks.tail })
  | r =>
    (some (if r = some .killed then .signaled else (child (child_world w)).1),
      { w with forks := w.forks.tail,
               fifos := (child (child_world w)).2.fifos,
               trace := (child (child_world w)).2.trace })

/-- The call `wait(&status)`: `true` for `-1`. -/
def wait (w : World) : Bool × World :=
  match w.waits with
  | [] => (false, w)
  | r :: rest => (r, { w with waits := rest })

/-- A path name made absolute against the working directory. -/
def resolve (cwd path : String) : String :=
  if path.toList.head? = some '/' then path else cwd ++ "/" ++ path

/-- The call `execv(path, argv)`: the program at `path` replaces the process
and the result is how it ends; `none` when the call returns `-1`. -/
def execv (path : String) (argv : List String) (w : World) :
    Option WaitStatus × World :=
  let w := w.log (.execv path argv)
  (w.executables.lookup (resolve w.cwd path), w)

/-- The directories of `PATH` (`/bin:/usr/bin` when it is not set). -/
def search_path (w : World) : List String :=
  match w.env.lookup "PATH" with
  | none => ["/bin", "/usr/bin"]
  | some p => (p.toList.splitOn ':').map String.mk

/-- The first executable named `file` in the given directories; an empty
directory name stands for the working directory. -/
def search (w : World) (file : String) : List String → Option WaitStatus
  | [] => none
  | d :: ds =>
    match w.executables.lookup
        (resolve w.cwd (if d = "" then file else d ++ "/" ++ file)) with
    | some st => some st
    | none => search w file ds

/-- The call `execvp(file, argv)`: as `execv` when `file` has a slash, else
`file` is looked up in the directories of `PATH`. -/
def execvp (file : String) (argv : List String) (w : World) :
    Option WaitStatus × World :=
  let w := w.log (.execvp file argv)
  if '/' ∈ file.toList then (w.executables.lookup (resolve w.cwd file), w)
  else (search w file (search_path w), w)

/-- The call `setenv(name, value, 1)`: `true` for `-1`.  A null or empty name
or one with `=` in it is refused. -/
def setenv (name value : Option String) (w : World) : Bool × World :=
  let w := w.log (.setenv name value)
  match name, value with
  | some n, some v =>
    if n = "" ∨ '=' ∈ n.toList ∨ w.setenv_error then (true, w)
    else (false, { w with env := (n, v) :: w.env.filter (fun p => p.1 ≠ n) })
  | _, _ => (true, w)

/-! ## `check_redirect` -/

/-- The input part of `check_redirect`. -/
def redirect_input (command : simple_command_t) (w : World) : Bool × World :=
  match command.in_ with
  | none => (false, w)
  | some file_in =>
    match sys_open file_in .rdonly w with
    | (none, w) => (true, w)
    | (some in_fd, w) =>
      (false, close (some in_fd) (dup2 (some in_fd) STDIN_FILENO w))

/-- The output part of `check_redirect`. -/
def redirect_output (k : Consts) (command : simple_command_t) (w : World) :
    Bool × World :=
  match command.out with
  | none => (false, w)
  | some file_out =>
    match (if command.io_flags = k.IO_OUT_APPEND
           then sys_open file_out .append w
           else sys_open file_out .trunc w) with
    | (none, w) => (true, w)
    | (some out_fd, w) =>
      (false, close (some out_fd) (dup2 (some out_fd) STDOUT_FILENO w))

/-- The error part of `check_redirect`. -/
def redirect_error (k : Consts) (command : simple_command_t) (w : World) :
    Bool × World :=
  match command.err with
  | none => (false, w)
  | some file_err =>
    if command.out = some file_err then
      (false, dup2 (some STDOUT_FILENO) STDERR_FILENO w)
    else
      match (if command.io_flags = k.IO_ERR_APPEND
             then sys_open file_err .append w
             else sys_open file_err .trunc w) with
      | (none, w) => (true, w)
      | (some err_fd, w) =>
        (false, close (some err_fd) (dup2 (some err_fd) STDERR_FILENO w))

/-- Function `check_redirect`: `true` when it returns 1. -/
def check_redirect (k : Consts) (command : simple_command_t) (w : World) :
    Bool × World :=
  match redirect_input command w with
  | (true, w) => (true, w)
  | (false, w) =>
    match redirect_output k command w with
    | (true, w) => (true, w)
    | (false, w) => redirect_error k command w

/-! ## Launching external programs -/

/-- Function `shell_run_command`: the generic launch path. -/
def shell_run_command (k : Consts) (params : List String)
    (command : simple_command_t) (w : World) : Int × World :=
  match fork (fun cw =>
      match check_redirect k command cw with
      | (true, cw) =>
        (exit 1, fprintf_stderr
          ("Execution failed for \x27" ++ params.headD "" ++ "\x27\n") cw)
      | (false, cw) =>
        match execv (params.headD "") params cw with
        | (some st, cw) => (st, cw)
        | (none, cw) =>
          (exit 1, fprintf_stderr
            ("Execution failed for \x27" ++ params.headD "" ++ "\x27\n") cw)) w with
  | (none, w) => (1, w)
  | (some status, w) =>
    match wait w with
    | (true, w) => (1, w)
    | (false, w) =>
      if WIFEXITED status then (WEXITSTATUS status, w) else (0, w)

/-- The body shared, up to the program name, by the sixteen functions
`shell_sleep`, ..., `shell_rm`: fork, redirect, `execvp(file, params)`, wait. -/
def shell_execvp (file : String) (k : Consts) (params : List String)
    (command : simple_command_t) (w : World) : Int × World :=
  match fork (fun cw =>
      match check_redirect k command cw with
      | (true, cw) => (exit 1, cw)
      | (false, cw) =>
        match execvp file params cw with
        | (some st, cw) => (st, cw)
        | (none, cw) => (exit 1, cw)) w with
  | (none, w) => (1, w)
  | (some status, w) =>
    match wait w with
    | (true, w) => (1, w)
    | (false, w) =>
      if WIFEXITED status then (WEXITSTATUS status, w) else (0, w)

def shell_sleep := shell_execvp "sleep"
def shell_grep := shell_execvp "grep"
def shell_ls := shell_execvp "ls"
def shell_tr := shell_execvp "tr"
def shell_cut := shell_execvp "cut"
def shell_sort := shell_execvp "sort"
def shell_uniq := shell_execvp "uniq"
def shell_wc := shell_execvp "wc"
def shell_cp := shell_execvp "cp"
def shell_echo := shell_execvp "echo"
def shell_gcc := shell_execvp "gcc"
def shell_cat := shell_execvp "cat"
def shell_whoami := shell_execvp "whoami"
def shell_uname := shell_execvp "uname"
def shell_mkdir := shell_execvp "mkdir"
def shell_rm := shell_execvp "rm"

/-- Function `shell_pwd`: as the others, with a diagnostic when the
redirection fails. -/
def shell_pwd (k : Consts) (params : List String)
    (command : simple_command_t) (w : World) : Int × World :=
  match fork (fun cw =>
      match check_redirect k command cw with
      | (true, cw) =>
        (exit 1, fprintf_stderr "Cannot open redirection file\n" cw)
      | (false, cw) =>
        match execvp "pwd" params cw with
        | (some st, cw) => (st, cw)
        | (none, cw) => (exit 1, cw)) w with
  | (none, w) => (1, w)
  | (some status, w) =>
    match wait w with
    | (true, w) => (1, w)
    | (false, w) =>
      if WIFEXITED status then (WEXITSTATUS status, w) else (0, w)

/-! ## Built-in commands -/

/-- Function `shell_cd`: `true` when it returns 1. -/
def shell_cd (k : Consts) (command : simple_command_t) (w : World) :
    Bool × World :=
  let param_cnt := command.params.length
  if param_cnt = 0 ∨ param_cnt > 1 then
    (true, fprintf_stderr "Invalid no of parameters\n" w)
  else
    let path := command.params.headD ""
    -- duplicate STDIN, STDOUT, STDERR
    let (in_fd, w) := dup STDIN_FILENO w
    let (out_fd, w) := dup STDOUT_FILENO w
    let (err_fd, w) := dup STDERR_FILENO w
    match check_redirect k command w with
    | (true, w) => (true, fprintf_stderr "Cannot open redirection file\n" w)
    | (false, w) =>
      let (err, w) :=
        match chdir path w with
        | (true, w) => (true, fprintf_stderr "Cannot change directory\n" w)
        | (false, w) => (false, w)
      -- closing the rerouted stdin/out/err file descriptors
      let w := close (some STDIN_FILENO) w
      let w := close (some STDOUT_FILENO) w
      let w := close (some STDERR_FILENO) w
      -- getting back the streams
      let w := dup2 in_fd STDIN_FILENO w
      let w := dup2 out_fd STDOUT_FILENO w
      let w := dup2 err_fd STDERR_FILENO w
      -- closing the duplicated file descriptors
      let w := close in_fd w
      let w := close out_fd w
      let w := close err_fd w
      (err, w)

/-- Function `shell_exit`. -/
def shell_exit (k : Consts) : Int := k.SHELL_EXIT

/-- The call `strtok_r(s, "=", &rest)` on the text `s`: the delimiters at the
front are skipped; if nothing is left the result is null; else the token
runs up to the next delimiter and `rest` starts after that delimiter. -/
def strtok_r (s : List Char) (delim : Char) : Option (List Char) × List Char :=
  match s.dropWhile (fun c => c = delim) with
  | [] => (none, [])
  | c :: cs =>
    (some ((c :: cs).takeWhile (fun c => c ≠ delim)),
      ((c :: cs).dropWhile (fun c => c ≠ delim)).drop 1)

/-- The loop `while (token) { value = token; token = strtok_r(rest, "=", &rest); }`
of `parse_simple`, run for at most `fuel` rounds; the result is `value`
(`none` while it is not assigned). -/
def value_loop : Nat → Option (List Char) → Option (List Char) → List Char →
    Option (List Char)
  | 0, _, value, _ => value
  | _ + 1, none, value, _ => value
  | fuel + 1, some token, _, rest =>
    value_loop fuel (strtok_r rest '=').1 (some token) (strtok_r rest '=').2

/-- Modelled from the spec: `get_argv` of `utils.c`, which is not among the
sources; the argument vector is the verb followed by the argument words. -/
def get_argv (s : simple_command_t) : List String :=
  s.verb :: s.params

/-- The environment assignment of `parse_simple` (the `strchr` branch). -/
def parse_assign (command : String) (w : World) : Int × World :=
  let name := (strtok_r command.toList '=').1
  let rest := (strtok_r command.toList '=').2
  let value := value_loop (command.length + 1) name none rest
  match setenv (name.map String.mk) (value.map String.mk) w with
  | (true, w) => (1, w)
  | (false, w) => (0, w)

/-- Function `parse_simple`. -/
def parse_simple (k : Consts) (s : simple_command_t) (_level : Nat)
    (w : World) : Int × World :=
  let command := s.verb
  if command = "cd" then
    match shell_cd k s w with
    | (true, w) => (1, w)
    | (false, w) => (0, w)
  else if command = "exit" then (shell_exit k, w)
  else if command = "quit" then (shell_exit k, w)
  else if '=' ∈ command.toList then parse_assign command w
  else
    let params := get_argv s
    if command = "mkdir" then shell_mkdir k params s w
    else if command = "cp" then shell_cp k params s w
    else if command = "echo" then shell_echo k params s w
    else if command = "gcc" then shell_gcc k params s w
    else if command = "cat" then shell_cat k params s w
    else if command = "rm" then shell_rm k params s w
    else if command = "pwd" then shell_pwd k params s w
    else if command = "whoami" then shell_whoami k params s w
    else if command = "uname" then shell_uname k params s w
    else if command = "true" then (0, w)
    else if command = "false" then (1, w)
    else if command = "ls" then shell_ls k params s w
    else if command = "tr" then shell_tr k params s w
    else if command = "cut" then shell_cut k params s w
    else if command = "sort" then shell_sort k params s w
    else if command = "uniq" then shell_uniq k params s w
    else if command = "wc" then shell_wc k params s w
    else if command = "grep" then shell_grep k params s w
    else if command = "sleep" then shell_sleep k params s w
    else shell_run_command k params s w

/-! ## Operators -/

/-- Function `run_in_parallel`; `cmd1` and `cmd2` stand for `parse_command`
on the two subtrees.  The result is 1 for `true`. -/
def run_in_parallel (cmd1 cmd2 : Nat → World → Int × World) (level : Nat)
    (w : World) : Int × World :=
  match fork (fun cw =>
      let (err, cw) := cmd1 (level + 1) cw
      (exit err, cw)) w with
  | (none, w) => (1, w)
  | (some _status1, w) =>
    match fork (fun cw =>
        let (err, cw) := cmd2 (level + 1) cw
        (exit err, cw)) w with
    | (none, w) => (1, w)
    | (some _status2, w) => (0, w)

/-- The loop of `run_on_pipe` around `mkfifo`, run for at most `fuel` rounds:
`some (some name)` when the FIFO `name` was created, `some none` when
`mkfifo` failed with an error other than `EEXIST`, `none` when the fuel is
used up. -/
def mkfifo_loop : Nat → String → World → Option (Option String × World)
  | 0, _, _ => none
  | fuel + 1, fifo_name, w =>
    if w.mkfifo_error then
      some (none, fprintf_stderr "Could not create fifo\n" w)
    else if fifo_name ∈ w.fifos then mkfifo_loop fuel (fifo_name ++ "_") w
    else some (some fifo_name, { w with fifos := fifo_name :: w.fifos })

/-- The call `unlink(name)` on a FIFO. -/
def unlink (name : String) (w : World) : World :=
  { w with fifos := w.fifos.filter (fun f => f ≠ name) }

/-- The `pid1 == 0` branch of `run_on_pipe`: the left child. -/
def pipe_left_child (cmd1 : Nat → World → Int × World) (level : Nat)
    (fifo_name : String) (cw : World) : WaitStatus × World :=
  match sys_open fifo_name .wronly cw with
  | (none, cw) => (exit 1, cw)
  | (some write_fd, cw) =>
    let cw := close (some write_fd) (dup2 (some write_fd) STDOUT_FILENO cw)
    let (err, cw) := cmd1 (level + 1) cw
    (exit err, close (some STDOUT_FILENO) cw)

/-- The `pid2 == 0` branch of `run_on_pipe`: the right child. -/
def pipe_right_child (cmd2 : Nat → World → Int × World) (level : Nat)
    (fifo_name : String) (cw : World) : WaitStatus × World :=
  match sys_open fifo_name .rdonly cw with
  | (none, cw) => (exit 1, cw)
  | (some read_fd, cw) =>
    let cw := close (some read_fd) (dup2 (some read_fd) STDIN_FILENO cw)
    let (err, cw) := cmd2 (level + 1) cw
    (exit err, close (some STDIN_FILENO) cw)

/-- Function `run_on_pipe`; `cmd1` and `cmd2` stand for `parse_command` on
the two subtrees. -/
def run_on_pipe (cmd1 cmd2 : Nat → World → Int × World) (level : Nat)
    (w : World) : Int × World :=
  match mkfifo_loop (w.fifos.length + 1) ("fifo" ++ toString level) w with
  | none => (1, w)
  | some (none, w) => (1, w)
  | some (some fifo_name, w) =>
    match fork (pipe_left_child cmd1 level fifo_name) w with
    | (none, w) => (1, w)
    | (some _status1, w) =>
      match fork (pipe_right_child cmd2 level fifo_name) w with
      | (none, w) => (1, w)
      | (some status2, w) =>
        -- delete fifo
        let w := unlink fifo_name w
        if WIFEXITED status2 then (WEXITSTATUS status2, w) else (0, w)

/-- Function `parse_command`. -/
def parse_command (k : Consts) : command_t → Nat → World → Int × World
  | .leaf scmd, level, w => parse_simple k scmd (level + 1) (w.log (.leaf scmd.verb))
  | .node .OP_SEQUENTIAL cmd1 cmd2, level, w =>
    let (err1, w) := parse_command k cmd1 (level + 1) w
    if err1 = k.SHELL_EXIT then (err1, w)
    else
      let (err2, w) := parse_command k cmd2 (level + 1) w
      if err2 = k.SHELL_EXIT then (err2, w)
      else (err1 + err2, w)
  | .node .OP_PARALLEL cmd1 cmd2, level, w =>
    run_in_parallel (parse_command k cmd1) (parse_command k cmd2) (level + 1) w
  | .node .OP_CONDITIONAL_NZERO cmd1 cmd2, level, w =>
    let (err1, w) := parse_command k cmd1 (level + 1) w
    if err1 = k.SHELL_EXIT then (err1, w)
    else if err1 ≠ 0 then
      let (err2, w) := parse_command k cmd2 (level + 1) w
      if err2 = k.SHELL_EXIT then (err2, w)
      else (err1 + err2, w)
    else (err1 + 0, w)
  | .node .OP_CONDITIONAL_ZERO cmd1 cmd2, level, w =>
    let (err1, w) := parse_command k cmd1 (level + 1) w
    if err1 = k.SHELL_EXIT then (err1, w)
    else if err1 = 0 then
      let (err2, w) := parse_command k cmd2 (level + 1) w
      if err2 = k.SHELL_EXIT then (err2, w)
      else (err1 + err2, w)
    else (err1 + 0, w)
  | .node .OP_PIPE cmd1 cmd2, level, w =>
    run_on_pipe (parse_command k cmd1) (parse_command k cmd2) (level + 1) w
  | .node .OP_DUMMY _ _, _, _w => (k.SHELL_EXIT, _w)


/-! ## Sample inputs -/

/-- Sample constants: the sentinel is negative, the two append flags are the
bits 1 and 2. -/
def k0 : Consts := ⟨-100, 1, 2⟩

/-- A sample world: a shell on a terminal, with a few programs installed. -/
def w0 : World :=
  { fds := [some (.tty 0), some (.tty 1), some (.tty 2)]
    env := [("PATH", "/bin")]
    cwd := "/home"
    forks := []
    waits := []
    unopenable := ["/missing"]
    dirs := ["/tmp"]
    executables := [("/bin/ls", .exited 0), ("/bin/two", .exited 2),
      ("/bin/three", .exited 3), ("/bin/a", .exited 200), ("/bin/b", .exited 100)]
    fifos := []
    mkfifo_error := false
    setenv_error := false
    trace := [] }

/-- The leaf with the given verb, without arguments and redirections. -/
def lf (verb : String) : command_t :=
  .leaf ⟨verb, [], none, none, none, 0⟩

/-! ## Notions used in the statements -/

/-- The world in which the right child of `run_on_pipe` evaluates its
subtree, `w` being the world of the parent once the FIFO `fifo_name` is made:
the left child has run, the right child has been created, has opened the
FIFO and has put it on its standard input. -/
def pipe_right_world (cmd1 : Nat → World → Int × World) (level : Nat)
    (fifo_name : String) (w : World) : World :=
  let cw := child_world (fork (pipe_left_child cmd1 level fifo_name) w).2
  close (sys_open fifo_name .rdonly cw).1
    (dup2 (sys_open fifo_name .rdonly cw).1 STDIN_FILENO (sys_open fifo_name .rdonly cw).2)

/-- The non-empty pieces a text falls into when it is split at every `=`. -/
def tokens (l : List Char) : List (List Char) :=
  (l.splitOn '=').filter (fun seg => decide (seg ≠ []))

/-- The `=`-delimited segments of a verb: the pieces the verb falls into when
it is split at every `=`. -/
def segments (verb : String) : List (List Char) :=
  verb.toList.splitOn '='

/-- The segments of a verb that are not empty. -/
def nonempty_segments (verb : String) : List (List Char) :=
  tokens verb.toList

/-- The external commands that `parse_simple` launches through a function of
their own (`true` and `false`, which it also recognises, launch nothing). -/
def known_commands : List String :=
  ["mkdir", "cp", "echo", "gcc", "cat", "rm", "pwd", "whoami", "uname", "ls", "tr", "cut",
    "sort", "uniq", "wc", "grep", "sleep"]

/-- The events that create a process or open a file. -/
def is_fork_or_open : Event → Bool
  | .fork => true
  | .opened _ _ => true
  | _ => false

/-- The world `w2` has the programs, working directory, environment and
FIFOs of `w1`. -/
def Frame (w1 w2 : World) : Prop :=
  w2.executables = w1.executables ∧ w2.cwd = w1.cwd ∧ w2.env = w1.env ∧ w2.fifos = w1.fifos

/-- The world without its trace. -/
def World.untraced (w : World) : World :=
  { w with trace := [] }

/-- The parent side that `shell_run_command`, `shell_execvp` and `shell_pwd`
have in common, around what their child does. -/
def launch (child : World → WaitStatus × World) (w : World) : Int × World :=
  match fork child w with
  | (none, w) => (1, w)
  | (some status, w) =>
    match wait w with
    | (true, w) => (1, w)
    | (false, w) =>
      if WIFEXITED status then (WEXITSTATUS status, w) else (0, w)

/-- The child of `shell_run_command`. -/
def generic_child (k : Consts) (params : List String) (command : simple_command_t)
    (cw : World) : WaitStatus × World :=
  match check_redirect k command cw with
  | (true, cw) =>
    (exit 1, fprintf_stderr
      ("Execution failed for \x27" ++ params.headD "" ++ "\x27\n") cw)
  | (false, cw) =>
    match execv (params.headD "") params cw with
    | (some st, cw) => (st, cw)
    | (none, cw) =>
      (exit 1, fprintf_stderr
        ("Execution failed for \x27" ++ params.headD "" ++ "\x27\n") cw)

/-- The child of `shell_execvp file` and, with the diagnostic `msg` on a
failed redirection, of `shell_pwd`. -/
def known_child (file : String) (msg : Option String) (k : Consts) (params : List String)
    (command : simple_command_t) (cw : World) : WaitStatus × World :=
  match check_redirect k command cw with
  | (true, cw) =>
    (exit 1, match msg with
      | none => cw
      | some m => fprintf_stderr m cw)
  | (false, cw) =>
    match execvp file params cw with
    | (some st, cw) => (st, cw)
    | (none, cw) => (exit 1, cw)

/-- The number of leaves of a command tree. -/
def leaves : command_t → Nat
  | .leaf _ => 1
  | .node _ a b => leaves a + leaves b

/-- A status that is the sentinel or lies between 0 and 255. -/
def StatusRange (k : Consts) (r : Int × World) : Prop :=
  r.1 = k.SHELL_EXIT ∨ (0 ≤ r.1 ∧ r.1 ≤ 255)

/-- The world `w2` has the descriptors of `w1` from 3 on. -/
def Above3 (w1 w2 : World) : Prop :=
  ∀ m, 3 ≤ m → get_fd w2.fds m = get_fd w1.fds m

/-- The world `w2` continues the trace of `w1` with calls of `open` only. -/
def OpensOnly (w1 w2 : World) : Prop :=
  ∃ opens, w2.trace = w1.trace ++ opens ∧ ∀ e ∈ opens, ∃ p m, e = Event.opened p m

/-- The calls the child of a recognised command makes after its
redirections: `execvp` on the command name when they opened; when one did
not, nothing, or for `pwd` one diagnostic. -/
def known_tail (verb : String) (argv : List String) (redirect_failed : Bool) : List Event :=
  if redirect_failed then
    if verb = "pwd" then [.stderr "Cannot open redirection file\n"] else []
  else [.execvp verb argv]

/-- The calls the child of `shell_run_command` makes after its redirections:
`execv` on `argv[0]` when they opened, followed by a diagnostic when the
program is not found; the same diagnostic alone when one did not open. -/
def generic_tail (verb : String) (argv : List String) (redirect_failed exec_failed : Bool) :
    List Event :=
  if redirect_failed then [.stderr ("Execution failed for \x27" ++ verb ++ "\x27\n")]
  else
    .execv verb argv ::
      (if exec_failed then [.stderr ("Execution failed for \x27" ++ verb ++ "\x27\n")]
       else [])

/-! ## Calls of `fork` -/

theorem fork_failed (child : World → WaitStatus × World) (w : World)
    (h : w.forks.head? = some .failed) :
    fork child w = (none, { w with forks := w.forks.tail }) := by
  simp [fork, h]

theorem fork_created (child : World → WaitStatus × World) (w : World)
    (h : w.forks.head? ≠ some .failed) :
    fork child w =
      (some (if w.forks.head? = some .killed then .signaled else (child (child_world w)).1),
        { w with forks := w.forks.tail,
                 fifos := (child (child_world w)).2.fifos,
                 trace := (child (child_world w)).2.trace }) := by
  unfold fork
  split
  · rename_i h'
    exact absurd h' h
  · rfl

/-! ## Sequencing and conditional operators -/

/-- C1: a SEQUENTIAL node evaluates its left subtree first; when that yields
the sentinel the node yields the sentinel in the world the left subtree left
behind (the right subtree is not evaluated); otherwise the right subtree is
evaluated in that world, the sentinel of the right subtree is returned as it
is, and in every other case the status is the sum of the two statuses. -/
theorem sequential_status (k : Consts) (L R : command_t) (level : Nat) (w : World) :
    (parse_command k L (level + 1) w).1 = k.SHELL_EXIT ∧
        parse_command k (.node .OP_SEQUENTIAL L R) level w =
          (k.SHELL_EXIT, (parse_command k L (level + 1) w).2) ∨
    (parse_command k L (level + 1) w).1 ≠ k.SHELL_EXIT ∧
      ((parse_command k R (level + 1) (parse_command k L (level + 1) w).2).1 = k.SHELL_EXIT ∧
        parse_command k (.node .OP_SEQUENTIAL L R) level w =
          (k.SHELL_EXIT,
            (parse_command k R (level + 1) (parse_command k L (level + 1) w).2).2) ∨
       (parse_command k R (level + 1) (parse_command k L (level + 1) w).2).1 ≠ k.SHELL_EXIT ∧
        parse_command k (.node .OP_SEQUENTIAL L R) level w =
          ((parse_command k L (level + 1) w).1 +
              (parse_command k R (level + 1) (parse_command k L (level + 1) w).2).1,
            (parse_command k R (level + 1) (parse_command k L (level + 1) w).2).2)) := by
  rw [parse_command]
  by_cases hL : (parse_command k L (level + 1) w).1 = k.SHELL_EXIT
  · left
    refine ⟨hL, ?_⟩
    simp [hL]
  · right
    refine ⟨hL, ?_⟩
    by_cases hR :
        (parse_command k R (level + 1) (parse_command k L (level + 1) w).2).1 = k.SHELL_EXIT
    · left
      refine ⟨hR, ?_⟩
      simp [hL, hR]
    · right
      refine ⟨hR, ?_⟩
      simp [hL, hR]

theorem sequential_status_witness :
    (parse_command k0 (.node .OP_SEQUENTIAL (lf "/bin/two") (lf "/bin/three")) 0 w0).1 = 5 ∧
      (parse_command k0 (.node .OP_SEQUENTIAL (lf "true") (lf "true")) 0 w0).1 = 0 := by
  rcases sequential_status k0 (lf "/bin/two") (lf "/bin/three") 0 w0 with
    ⟨h, _⟩ | ⟨_, ⟨h, _⟩ | ⟨_, h⟩⟩
  · exact absurd h (by decide)
  · exact absurd h (by decide)
  · exact ⟨by rw [h]; decide, by decide⟩

/-- C3: at a node whose right branch is guarded by `if (err1)`, when the left
status is not the sentinel: a nonzero left status has the right subtree
evaluated and, unless that yields the sentinel, the node yields the sum of
the two statuses; a zero left status has the node yield 0 in the world the
left subtree left behind, the right subtree not being evaluated. -/
theorem conditional_nzero_status (k : Consts) (A B : command_t) (level : Nat) (w : World)
    (hA : (parse_command k A (level + 1) w).1 ≠ k.SHELL_EXIT) :
    ((parse_command k A (level + 1) w).1 ≠ 0 →
      (parse_command k B (level + 1) (parse_command k A (level + 1) w).2).1 ≠ k.SHELL_EXIT →
      parse_command k (.node .OP_CONDITIONAL_NZERO A B) level w =
        ((parse_command k A (level + 1) w).1 +
            (parse_command k B (level + 1) (parse_command k A (level + 1) w).2).1,
          (parse_command k B (level + 1) (parse_command k A (level + 1) w).2).2)) ∧
    ((parse_command k A (level + 1) w).1 = 0 →
      parse_command k (.node .OP_CONDITIONAL_NZERO A B) level w =
        (0, (parse_command k A (level + 1) w).2)) := by
  constructor
  · intro h0 hB
    rw [parse_command]
    simp [hA, h0, hB]
  · intro h0
    rw [parse_command]
    simp [hA, h0]

theorem conditional_nzero_status_witness :
    parse_command k0 (.node .OP_CONDITIONAL_NZERO (lf "false") (lf "/bin/two")) 0 w0 =
        (3, (parse_command k0 (lf "/bin/two") 1 (parse_command k0 (lf "false") 1 w0).2).2) ∧
      parse_command k0 (.node .OP_CONDITIONAL_NZERO (lf "true") (lf "/bin/two")) 0 w0 =
        (0, (parse_command k0 (lf "true") 1 w0).2) :=
  ⟨(conditional_nzero_status k0 (lf "false") (lf "/bin/two") 0 w0 (by decide)).1
      (by decide) (by decide),
   (conditional_nzero_status k0 (lf "true") (lf "/bin/two") 0 w0 (by decide)).2 (by decide)⟩

/-- C4: at a node whose right branch is guarded by `if (!err1)`, when the left
status is not the sentinel: a zero left status has the right subtree
evaluated and, unless that yields the sentinel, the node yields the sum of
the two statuses, which is the right status; a nonzero left status has the
node yield the left status in the world the left subtree left behind, the
right subtree not being evaluated. -/
theorem conditional_zero_status (k : Consts) (A B : command_t) (level : Nat) (w : World)
    (hA : (parse_command k A (level + 1) w).1 ≠ k.SHELL_EXIT) :
    ((parse_command k A (level + 1) w).1 = 0 →
      (parse_command k B (level + 1) (parse_command k A (level + 1) w).2).1 ≠ k.SHELL_EXIT →
      parse_command k (.node .OP_CONDITIONAL_ZERO A B) level w =
          ((parse_command k A (level + 1) w).1 +
              (parse_command k B (level + 1) (parse_command k A (level + 1) w).2).1,
            (parse_command k B (level + 1) (parse_command k A (level + 1) w).2).2) ∧
        (parse_command k A (level + 1) w).1 +
            (parse_command k B (level + 1) (parse_command k A (level + 1) w).2).1 =
          (parse_command k B (level + 1) (parse_command k A (level + 1) w).2).1) ∧
    ((parse_command k A (level + 1) w).1 ≠ 0 →
      parse_command k (.node .OP_CONDITIONAL_ZERO A B) level w =
        ((parse_command k A (level + 1) w).1, (parse_command k A (level + 1) w).2)) := by
  constructor
  · intro h0 hB
    have hA0 : (0 : Int) ≠ k.SHELL_EXIT := h0 ▸ hA
    rw [parse_command]
    simp [hA0, h0, hB]
  · intro h0
    rw [parse_command]
    simp [hA, h0]

theorem conditional_zero_status_witness :
    parse_command k0 (.node .OP_CONDITIONAL_ZERO (lf "true") (lf "/bin/two")) 0 w0 =
        (2, (parse_command k0 (lf "/bin/two") 1 (parse_command k0 (lf "true") 1 w0).2).2) ∧
      parse_command k0 (.node .OP_CONDITIONAL_ZERO (lf "/bin/three") (lf "/bin/two")) 0 w0 =
        (3, (parse_command k0 (lf "/bin/three") 1 w0).2) :=
  ⟨((conditional_zero_status k0 (lf "true") (lf "/bin/two") 0 w0 (by decide)).1
      (by decide) (by decide)).1,
   (conditional_zero_status k0 (lf "/bin/three") (lf "/bin/two") 0 w0 (by decide)).2
      (by decide)⟩

/-! ## Parallel branches -/

/-- C6: a PARALLEL node yields 1 when the first or the second call of `fork`
fails and 0 when both succeed, whatever the two subtrees are and whatever
they evaluate to in the children. -/
theorem parallel_status (k : Consts) (L R : command_t) (level : Nat) (w : World) :
    (parse_command k (.node .OP_PARALLEL L R) level w).1 =
      if w.forks.head? = some .failed ∨ w.forks.tail.head? = some .failed then 1 else 0 := by
  rw [parse_command, run_in_parallel]
  by_cases h1 : w.forks.head? = some .failed
  · rw [fork_failed _ _ h1, if_pos (Or.inl h1)]
  · rw [fork_created _ _ h1]
    dsimp only
    by_cases h2 : w.forks.tail.head? = some .failed
    · rw [fork_failed _ _ h2, if_pos (Or.inr h2)]
    · rw [fork_created _ _ h2, if_neg (not_or.mpr ⟨h1, h2⟩)]

theorem parallel_status_witness :
    (parse_command k0 (.node .OP_PARALLEL (lf "exit") (lf "false")) 0 w0).1 = 0 ∧
      (parse_command k0 (.node .OP_PARALLEL (lf "exit") (lf "false")) 0
        { w0 with forks := [.failed] }).1 = 1 ∧
      (parse_command k0 (.node .OP_PARALLEL (lf "exit") (lf "false")) 0
        { w0 with forks := [.child, .failed] }).1 = 1 :=
  ⟨(parallel_status k0 (lf "exit") (lf "false") 0 w0).trans (by decide),
    (parallel_status k0 (lf "exit") (lf "false") 0 { w0 with forks := [.failed] }).trans
      (by decide),
    (parallel_status k0 (lf "exit") (lf "false") 0
      { w0 with forks := [.child, .failed] }).trans (by decide)⟩

/-! ## The trace -/

theorem trace_dup2 (old : Option Nat) (new : Nat) (w : World) :
    (dup2 old new w).trace = w.trace := by
  unfold dup2
  split
  · rfl
  · split <;> rfl

theorem trace_close (fd : Option Nat) (w : World) : (close fd w).trace = w.trace := by
  unfold close
  split <;> rfl

theorem ite_cases {α : Type} (P : α → Prop) (c : Prop) [Decidable c] (a b : α)
    (ha : c → P a) (hb : ¬c → P b) : P (if c then a else b) := by
  split
  · exact ha ‹_›
  · exact hb ‹_›

theorem parse_command_seq (k : Consts) (a b : command_t) (level : Nat) (w : World) :
    parse_command k (.node .OP_SEQUENTIAL a b) level w =
      if (parse_command k a (level + 1) w).1 = k.SHELL_EXIT then
        parse_command k a (level + 1) w
      else if (parse_command k b (level + 1) (parse_command k a (level + 1) w).2).1
          = k.SHELL_EXIT then
        parse_command k b (level + 1) (parse_command k a (level + 1) w).2
      else
        ((parse_command k a (level + 1) w).1 +
            (parse_command k b (level + 1) (parse_command k a (level + 1) w).2).1,
          (parse_command k b (level + 1) (parse_command k a (level + 1) w).2).2) := by
  rw [parse_command]

theorem parse_command_nzero (k : Consts) (a b : command_t) (level : Nat) (w : World) :
    parse_command k (.node .OP_CONDITIONAL_NZERO a b) level w =
      if (parse_command k a (level + 1) w).1 = k.SHELL_EXIT then
        parse_command k a (level + 1) w
      else if (parse_command k a (level + 1) w).1 ≠ 0 then
        if (parse_command k b (level + 1) (parse_command k a (level + 1) w).2).1
            = k.SHELL_EXIT then
          parse_command k b (level + 1) (parse_command k a (level + 1) w).2
        else
          ((parse_command k a (level + 1) w).1 +
              (parse_command k b (level + 1) (parse_command k a (level + 1) w).2).1,
            (parse_command k b (level + 1) (parse_command k a (level + 1) w).2).2)
      else ((parse_command k a (level + 1) w).1 + 0, (parse_command k a (level + 1) w).2) := by
  rw [parse_command]

theorem parse_command_zero (k : Consts) (a b : command_t) (level : Nat) (w : World) :
    parse_command k (.node .OP_CONDITIONAL_ZERO a b) level w =
      if (parse_command k a (level + 1) w).1 = k.SHELL_EXIT then
        parse_command k a (level + 1) w
      else if (parse_command k a (level + 1) w).1 = 0 then
        if (parse_command k b (level + 1) (parse_command k a (level + 1) w).2).1
            = k.SHELL_EXIT then
          parse_command k b (level + 1) (parse_command k a (level + 1) w).2
        else
          ((parse_command k a (level + 1) w).1 +
              (parse_command k b (level + 1) (parse_command k a (level + 1) w).2).1,
            (parse_command k b (level + 1) (parse_command k a (level + 1) w).2).2)
      else ((parse_command k a (level + 1) w).1 + 0, (parse_command k a (level + 1) w).2) := by
  rw [parse_command]

theorem countP_lt_of_mem (p q : String → Bool) (l : List String) (a : String)
    (hpq : ∀ x, p x = true → q x = true) (ha : a ∈ l) (hq : q a = true) (hp : p a = false) :
    l.countP p < l.countP q := by
  induction l with
  | nil => simp at ha
  | cons x xs ih =>
    have hle : xs.countP p ≤ xs.countP q := List.countP_mono_left (fun y _ => hpq y)
    rcases List.mem_cons.mp ha with rfl | hmem
    · rw [List.countP_cons_of_neg _ _ (by simp [hp]), List.countP_cons_of_pos _ _ hq]
      omega
    · have := ih hmem
      by_cases hx : p x = true
      · rw [List.countP_cons_of_pos _ _ hx, List.countP_cons_of_pos _ _ (hpq x hx)]
        omega
      · rw [List.countP_cons_of_neg _ _ hx]
        by_cases hqx : q x = true
        · rw [List.countP_cons_of_pos _ _ hqx]
          omega
        · rw [List.countP_cons_of_neg _ _ hqx]
          exact this

/-- The loop around `mkfifo` needs at most one round more than there are
FIFOs whose name starts with the name it tries. -/
theorem mkfifo_loop_fuel (fuel : Nat) :
    ∀ (name : String) (w : World),
      w.fifos.countP (fun f => decide (name.toList <+: f.toList)) < fuel →
        mkfifo_loop fuel name w ≠ none := by
  induction fuel with
  | zero => intro name w h; exact absurd h (Nat.not_lt_zero _)
  | succ n ih =>
    intro name w h
    rw [mkfifo_loop]
    split_ifs with h1 h2
    · simp
    · apply ih
      have hlt := countP_lt_of_mem
        (fun f => decide ((name ++ "_").toList <+: f.toList))
        (fun f => decide (name.toList <+: f.toList)) w.fifos name
        (by
          intro x hx
          simp only [decide_eq_true_eq] at hx ⊢
          have : (name ++ "_").toList = name.toList ++ "_".toList := by simp
          rw [this] at hx
          exact (List.prefix_append _ _).trans hx)
        h2 (by simp)
        (by
          simp only [decide_eq_false_iff_not]
          intro hpre
          have hl := hpre.length_le
          have : (name ++ "_").toList = name.toList ++ "_".toList := by simp
          rw [this] at hl
          simp at hl)
      omega
    · simp

/-- In `run_on_pipe` the loop around `mkfifo` is given enough rounds: it makes
the FIFO or fails with an error other than `EEXIST`. -/
theorem mkfifo_loop_ends (name : String) (w : World) :
    mkfifo_loop (w.fifos.length + 1) name w ≠ none :=
  mkfifo_loop_fuel _ name w (Nat.lt_succ_of_le (List.countP_le_length _))

/-! ## Pipes -/

theorem mkfifo_loop_created (fuel : Nat) :
    ∀ (name : String) (w w1 : World) (fifo_name : String),
      mkfifo_loop fuel name w = some (some fifo_name, w1) →
        w1 = { w with fifos := fifo_name :: w.fifos } := by
  induction fuel with
  | zero => intro name w w1 fifo_name h; simp [mkfifo_loop] at h
  | succ n ih =>
    intro name w w1 fifo_name h
    rw [mkfifo_loop] at h
    split_ifs at h with h1 h2
    · simp at h
    · exact ih _ _ _ _ h
    · simp only [Option.some.injEq, Prod.mk.injEq] at h
      obtain ⟨rfl, rfl⟩ := h
      rfl

theorem sys_open_ok (path : String) (mode : OpenMode) (w : World)
    (h : path ∉ w.unopenable) :
    (sys_open path mode w).1 = some (lowest_free w.fds) := by
  unfold sys_open
  simp [World.log, h]

theorem wexitstatus_exit (err : Int) : WEXITSTATUS (exit err) = err % 256 := by
  unfold exit WEXITSTATUS
  simp only
  rw [Int.toNat_of_nonneg (Int.emod_nonneg _ (by norm_num))]
  exact Int.emod_emod_of_dvd _ (dvd_refl _)

theorem pipe_right_child_status (cmd2 : Nat → World → Int × World) (level : Nat)
    (fifo_name : String) (cw : World) (h : fifo_name ∉ cw.unopenable) :
    (pipe_right_child cmd2 level fifo_name cw).1 =
      exit (cmd2 (level + 1)
        (close (sys_open fifo_name .rdonly cw).1
          (dup2 (sys_open fifo_name .rdonly cw).1 STDIN_FILENO
            (sys_open fifo_name .rdonly cw).2))).1 := by
  have ho := sys_open_ok fifo_name .rdonly cw h
  unfold pipe_right_child
  split
  · rename_i w1 h1
    rw [h1] at ho
    simp at ho
  · rename_i fd w1 h1
    rw [h1]

theorem pipe_left_child_world (cmd1 : Nat → World → Int × World) (st : Int) (level : Nat)
    (fifo_name : String) (cw : World) :
    (pipe_left_child (fun lv w => (st, (cmd1 lv w).2)) level fifo_name cw).2 =
      (pipe_left_child cmd1 level fifo_name cw).2 := by
  unfold pipe_left_child
  split <;> rfl

theorem run_on_pipe_left_status (cmd1 cmd2 : Nat → World → Int × World) (st : Int)
    (level : Nat) (w : World) :
    run_on_pipe (fun lv cw => (st, (cmd1 lv cw).2)) cmd2 level w =
      run_on_pipe cmd1 cmd2 level w := by
  unfold run_on_pipe
  split
  · rfl
  · rfl
  · rename_i fifo_name w1 _
    by_cases hf : w1.forks.head? = some .failed
    · rw [fork_failed _ _ hf, fork_failed _ _ hf]
    · rw [fork_created _ _ hf, fork_created _ _ hf]
      simp only [pipe_left_child_world]

theorem run_on_pipe_status (cmd1 cmd2 : Nat → World → Int × World) (level : Nat)
    (w w1 : World) (fifo_name : String)
    (hfifo : mkfifo_loop (w.fifos.length + 1) ("fifo" ++ toString level) w
      = some (some fifo_name, w1))
    (hfork1 : w.forks.head? ≠ some .failed)
    (hfork2 : w.forks.tail.head? ≠ some .failed)
    (hexit : w.forks.tail.head? ≠ some .killed)
    (hopen : fifo_name ∉ w.unopenable) :
    (run_on_pipe cmd1 cmd2 level w).1 =
      (cmd2 (level + 1) (pipe_right_world cmd1 level fifo_name w1)).1 % 256 := by
  have hw1 := mkfifo_loop_created _ _ _ _ _ hfifo
  have hf1 : w1.forks.head? ≠ some .failed := by rw [hw1]; exact hfork1
  unfold run_on_pipe
  rw [hfifo]
  simp only
  rw [fork_created _ _ hf1]
  simp only
  have hf2 : w1.forks.tail.head? ≠ some .failed := by rw [hw1]; exact hfork2
  have hk2 : w1.forks.tail.head? ≠ some .killed := by rw [hw1]; exact hexit
  rw [fork_created _ _ hf2]
  simp only [if_neg hk2]
  rw [pipe_right_child_status _ _ _ _ (by rw [hw1]; exact hopen)]
  have hwif : ∀ e : Int, WIFEXITED (exit e) = true := fun _ => rfl
  simp only [hwif, if_true, wexitstatus_exit, pipe_right_world]
  rw [fork_created _ _ hf1]

/-- C5 (amended): at a PIPE node for which the FIFO is made, both calls of `fork`
succeed, the right child is not killed by a signal and opens the FIFO, the
status is the low byte (the value modulo 256) of the status the right
subtree evaluates to in the right child; and the status the left subtree
evaluates to has no influence: with any other left status the node behaves
the same. -/
theorem pipe_status (k : Consts) (A B : command_t) (level : Nat) (w w1 : World)
    (fifo_name : String)
    (hfifo : mkfifo_loop (w.fifos.length + 1) ("fifo" ++ toString (level + 1)) w
      = some (some fifo_name, w1))
    (hfork1 : w.forks.head? ≠ some .failed)
    (hfork2 : w.forks.tail.head? ≠ some .failed)
    (hexit : w.forks.tail.head? ≠ some .killed)
    (hopen : fifo_name ∉ w.unopenable) :
    (parse_command k (.node .OP_PIPE A B) level w).1 =
        (parse_command k B (level + 1 + 1)
          (pipe_right_world (parse_command k A) (level + 1) fifo_name w1)).1 % 256 ∧
      ∀ st : Int,
        run_on_pipe (fun lv cw => (st, (parse_command k A lv cw).2)) (parse_command k B)
            (level + 1) w =
          parse_command k (.node .OP_PIPE A B) level w := by
  rw [parse_command]
  exact ⟨run_on_pipe_status _ _ _ _ _ _ hfifo hfork1 hfork2 hexit hopen,
    fun st => run_on_pipe_left_status _ _ st _ _⟩

theorem pipe_status_witness :
    (parse_command k0 (.node .OP_PIPE (lf "false") (lf "/bin/three")) 0 w0).1 = 3 :=
  (pipe_status k0 (lf "false") (lf "/bin/three") 0 w0 { w0 with fifos := ["fifo1"] } "fifo1"
    (by decide) (by decide) (by decide) (by decide) (by decide)).1.trans (by decide)

/-- The claim C5 as it is worded fails: the right subtree of this pipe
evaluates to 300 in the right child (the value handed to `exit`), and the
pipe yields 44. -/
theorem pipe_status_counterexample :
    (parse_command k0 (.node .OP_PIPE (lf "ls")
        (.node .OP_SEQUENTIAL (lf "/bin/a") (lf "/bin/b"))) 0 w0).1 = 44 ∧
      (parse_command k0 (.node .OP_SEQUENTIAL (lf "/bin/a") (lf "/bin/b")) 2
        (pipe_right_world (parse_command k0 (lf "ls")) 1 "fifo1"
          { w0 with fifos := ["fifo1"] })).1 = 300 ∧
      (parse_command k0 (.node .OP_PIPE (lf "ls")
          (.node .OP_SEQUENTIAL (lf "/bin/a") (lf "/bin/b"))) 0 w0).1 ≠
        (parse_command k0 (.node .OP_SEQUENTIAL (lf "/bin/a") (lf "/bin/b")) 2
          (pipe_right_world (parse_command k0 (lf "ls")) 1 "fifo1"
            { w0 with fifos := ["fifo1"] })).1 ∧
      mkfifo_loop (w0.fifos.length + 1) ("fifo" ++ toString 1) w0
        = some (some "fifo1", { w0 with fifos := ["fifo1"] }) ∧
      w0.forks = [] := by
  decide

/-! ## Environment assignment -/

theorem splitOn_eq_takeWhile (l : List Char) :
    l.splitOn '=' =
      l.takeWhile (fun c => decide (c ≠ '=')) ::
        (match l.dropWhile (fun c => decide (c ≠ '=')) with
         | [] => []
         | _ :: r => r.splitOn '=') := by
  induction l with
  | nil => rfl
  | cons c cs ih =>
    unfold List.splitOn at ih ⊢
    rw [List.splitOnP_cons]
    by_cases hc : c = '='
    · subst hc
      simp
    · have : (c == '=') = false := by simpa using hc
      simp only [this, Bool.false_eq_true, if_false]
      rw [ih]
      simp [List.takeWhile, List.dropWhile, hc, List.modifyHead]

theorem tokens_nil : tokens [] = [] := by decide

theorem tokens_cons_eq (cs : List Char) : tokens ('=' :: cs) = tokens cs := by
  unfold tokens List.splitOn
  rw [List.splitOnP_cons]
  simp

theorem tokens_cons_ne (c : Char) (cs : List Char) (hc : c ≠ '=') :
    tokens (c :: cs) =
      (c :: cs.takeWhile (fun c => decide (c ≠ '='))) ::
        tokens ((cs.dropWhile (fun c => decide (c ≠ '='))).drop 1) := by
  unfold tokens
  rw [splitOn_eq_takeWhile (c :: cs)]
  simp only [List.takeWhile, List.dropWhile, hc, ne_eq, not_false_eq_true, decide_True]
  cases h : cs.dropWhile (fun c => decide (¬c = '=')) with
  | nil => simp [List.filter]
  | cons x r => simp [List.filter]

theorem strtok_r_tokens (l : List Char) :
    (strtok_r l '=').1 = (tokens l).head? ∧
      tokens (strtok_r l '=').2 = (tokens l).tail ∧
      (strtok_r l '=').2.length ≤ l.length - 1 := by
  induction l with
  | nil => simp [strtok_r, tokens_nil]
  | cons c cs ih =>
    by_cases hc : c = '='
    · subst hc
      have : strtok_r ('=' :: cs) '=' = strtok_r cs '=' := by
        simp [strtok_r, List.dropWhile]
      rw [this, tokens_cons_eq]
      exact ⟨ih.1, ih.2.1, le_trans ih.2.2 (by simp)⟩
    · have : strtok_r (c :: cs) '=' =
          (some (c :: cs.takeWhile (fun c => decide (c ≠ '='))),
            (cs.dropWhile (fun c => decide (c ≠ '='))).drop 1) := by
        simp [strtok_r, List.dropWhile, List.takeWhile, hc]
      rw [this, tokens_cons_ne c cs hc]
      refine ⟨rfl, rfl, ?_⟩
      simp only [List.length_drop, List.length_cons, Nat.add_sub_cancel]
      exact le_trans (Nat.sub_le _ _) (List.Sublist.length_le (List.dropWhile_sublist _))
theorem value_loop_tokens (fuel : Nat) :
    ∀ (tok value : Option (List Char)) (rest : List Char),
      (tok = none ∨ rest.length < fuel) →
        value_loop fuel tok value rest =
          match tok with
          | none => value
          | some t => (t :: tokens rest).getLast? := by
  induction fuel with
  | zero =>
    intro tok value rest h
    rcases h with rfl | h
    · rfl
    · exact absurd h (Nat.not_lt_zero _)
  | succ n ih =>
    intro tok value rest h
    cases tok with
    | none => rfl
    | some t =>
      have hlen : rest.length < n + 1 := by
        rcases h with h | h
        · cases h
        · exact h
      obtain ⟨h1, h2, h3⟩ := strtok_r_tokens rest
      rw [value_loop, ih]
      · rw [h1]
        cases htk : tokens rest with
        | nil => simp
        | cons t1 ts =>
          rw [htk] at h2
          simp only [List.head?_cons, List.tail_cons] at h2 ⊢
          rw [h2, List.getLast?_cons_cons]
      · cases rest with
        | nil =>
          left
          rw [h1, tokens_nil]
          rfl
        | cons c cs =>
          right
          simp only [List.length_cons, Nat.add_sub_cancel] at h3 hlen
          omega

theorem value_loop_parse_assign (l : List Char) :
    value_loop (l.length + 1) (strtok_r l '=').1 none (strtok_r l '=').2 =
      (tokens l).getLast? := by
  obtain ⟨h1, h2, h3⟩ := strtok_r_tokens l
  rw [value_loop_tokens _ _ _ _ (Or.inr (by omega)), h1, h2]
  cases tokens l with
  | nil => rfl
  | cons t ts => rfl

theorem tokens_ne_nil (l : List Char) (h : ∃ c ∈ l, c ≠ '=') : tokens l ≠ [] := by
  induction l with
  | nil => simp at h
  | cons c cs ih =>
    by_cases hc : c = '='
    · subst hc
      rw [tokens_cons_eq]
      apply ih
      obtain ⟨d, hd, hne⟩ := h
      rcases List.mem_cons.mp hd with rfl | hd
      · exact absurd rfl hne
      · exact ⟨d, hd, hne⟩
    · rw [tokens_cons_ne c cs hc]
      simp

theorem parse_simple_assign (k : Consts) (s : simple_command_t) (level : Nat) (w : World)
    (h : '=' ∈ s.verb.toList) :
    parse_simple k s level w = parse_assign s.verb w := by
  have h1 : s.verb ≠ "cd" := by intro e; rw [e] at h; revert h; decide
  have h2 : s.verb ≠ "exit" := by intro e; rw [e] at h; revert h; decide
  have h3 : s.verb ≠ "quit" := by intro e; rw [e] at h; revert h; decide
  simp only [parse_simple]
  rw [if_neg h1, if_neg h2, if_neg h3, if_pos h]

theorem parse_assign_tokens (command : String) (w : World) :
    parse_assign command w =
      (if (setenv ((tokens command.toList).head?.map String.mk)
            ((tokens command.toList).getLast?.map String.mk) w).1 then 1 else 0,
        (setenv ((tokens command.toList).head?.map String.mk)
            ((tokens command.toList).getLast?.map String.mk) w).2) := by
  unfold parse_assign
  simp only
  have hlen : command.length = command.toList.length := rfl
  rw [hlen, value_loop_parse_assign, (strtok_r_tokens command.toList).1]
  split <;> rename_i h <;> rw [h] <;> rfl

theorem setenv_some (n v : String) (w : World) :
    setenv (some n) (some v) w =
      if n = "" ∨ '=' ∈ n.toList ∨ w.setenv_error then
        (true, w.log (.setenv (some n) (some v)))
      else
        (false, { w.log (.setenv (some n) (some v)) with
          env := (n, v) :: w.env.filter (fun p => p.1 ≠ n) }) := rfl

/-- C7 (amended): for a verb with an `=` and some other character in it,
`parse_simple` calls `setenv` once, with overwrite and without creating a
process, on the first segment of the verb that is not empty as the name and
the last segment that is not empty as the value; it yields 0 when that call
succeeds, the variable then having that value, and 1 when it fails. -/
theorem assignment_sets_last_segment (k : Consts) (s : simple_command_t) (level : Nat)
    (w : World) (h : '=' ∈ s.verb.toList) (hne : ∃ c ∈ s.verb.toList, c ≠ '=') :
    ∃ name value,
      (nonempty_segments s.verb).head? = some name ∧
      (nonempty_segments s.verb).getLast? = some value ∧
      parse_simple k s level w =
        (if (setenv (some (String.mk name)) (some (String.mk value)) w).1 then 1 else 0,
          (setenv (some (String.mk name)) (some (String.mk value)) w).2) ∧
      (parse_simple k s level w).2.trace =
        w.trace ++ [Event.setenv (some (String.mk name)) (some (String.mk value))] ∧
      ((parse_simple k s level w).1 = 0 →
        (parse_simple k s level w).2.env.lookup (String.mk name) = some (String.mk value)) := by
  have hnil := tokens_ne_nil _ hne
  obtain ⟨name, hname⟩ : ∃ name, (tokens s.verb.toList).head? = some name := by
    cases htk : tokens s.verb.toList with
    | nil => exact absurd htk hnil
    | cons t ts => exact ⟨t, rfl⟩
  obtain ⟨value, hvalue⟩ : ∃ value, (tokens s.verb.toList).getLast? = some value := by
    cases hl : (tokens s.verb.toList).getLast? with
    | none => exact absurd (List.getLast?_eq_none_iff.mp hl) hnil
    | some v => exact ⟨v, rfl⟩
  have heq := parse_assign_tokens s.verb w
  rw [hname, hvalue] at heq
  simp only [Option.map_some'] at heq
  refine ⟨name, value, hname, hvalue, ?_, ?_, ?_⟩
  · rw [parse_simple_assign k s level w h, heq]
  · rw [parse_simple_assign k s level w h, heq]
    simp only [setenv_some]
    split_ifs <;> rfl
  · rw [parse_simple_assign k s level w h, heq]
    simp only [setenv_some]
    split_ifs with hc h2 <;> first | exact absurd rfl h2 | simp [World.log]

theorem assignment_sets_last_segment_witness :
    ∃ name value,
      (nonempty_segments "A=b=c").head? = some name ∧
      (nonempty_segments "A=b=c").getLast? = some value ∧
      parse_simple k0 ⟨"A=b=c", [], none, none, none, 0⟩ 1 w0 =
        (if (setenv (some (String.mk name)) (some (String.mk value)) w0).1 then 1 else 0,
          (setenv (some (String.mk name)) (some (String.mk value)) w0).2) ∧
      (parse_simple k0 ⟨"A=b=c", [], none, none, none, 0⟩ 1 w0).2.trace =
        w0.trace ++ [Event.setenv (some (String.mk name)) (some (String.mk value))] ∧
      ((parse_simple k0 ⟨"A=b=c", [], none, none, none, 0⟩ 1 w0).1 = 0 →
        (parse_simple k0 ⟨"A=b=c", [], none, none, none, 0⟩ 1 w0).2.env.lookup (String.mk name)
          = some (String.mk value)) :=
  assignment_sets_last_segment k0 ⟨"A=b=c", [], none, none, none, 0⟩ 1 w0
    (by decide) ⟨'A', by decide, by decide⟩

/-- The claim C7 as it is worded fails: the last `=`-delimited segment of
the verb `A=` is empty, and `parse_simple` sets `A` to `A`. -/
theorem assignment_counterexample :
    (segments "A=").head? = some "A".toList ∧
      (segments "A=").getLast? = some "".toList ∧
      (segments "A=").getLast? ≠ some "A".toList ∧
      (parse_simple k0 ⟨"A=", [], none, none, none, 0⟩ 1 w0).1 = 0 ∧
      (parse_simple k0 ⟨"A=", [], none, none, none, 0⟩ 1 w0).2.trace =
        [Event.setenv (some "A") (some "A")] ∧
      (parse_simple k0 ⟨"A=", [], none, none, none, 0⟩ 1 w0).2.env.lookup "A" = some "A" := by
  decide

/-! ## Redirections -/

theorem sys_open_trace (path : String) (mode : OpenMode) (w : World) :
    (sys_open path mode w).2.trace = w.trace ++ [.opened path mode] := by
  unfold sys_open
  dsimp only
  split <;> rfl

theorem sys_open_unopenable (path : String) (mode : OpenMode) (w : World) :
    (sys_open path mode w).2.unopenable = w.unopenable := by
  unfold sys_open
  dsimp only
  split <;> rfl

theorem redirect_output_trace (k : Consts) (command : simple_command_t) (w : World)
    (file_out : String) (hout : command.out = some file_out) :
    (redirect_output k command w).2.trace =
      w.trace ++ [.opened file_out
        (if command.io_flags = k.IO_OUT_APPEND then .append else .trunc)] := by
  unfold redirect_output
  rw [hout]
  dsimp only
  split_ifs with hc
  · split <;> rename_i h
    · rw [← sys_open_trace, h]
    · rw [← sys_open_trace file_out .append w, h]
      simp [trace_close, trace_dup2]
  · split <;> rename_i h
    · rw [← sys_open_trace, h]
    · rw [← sys_open_trace file_out .trunc w, h]
      simp [trace_close, trace_dup2]

theorem redirect_error_trace (k : Consts) (command : simple_command_t) (w : World)
    (file_err : String) (herr : command.err = some file_err)
    (hne : command.out ≠ some file_err) :
    (redirect_error k command w).2.trace =
      w.trace ++ [.opened file_err
        (if command.io_flags = k.IO_ERR_APPEND then .append else .trunc)] := by
  unfold redirect_error
  rw [herr]
  dsimp only
  rw [if_neg hne]
  split_ifs with hc
  · split <;> rename_i h
    · rw [← sys_open_trace, h]
    · rw [← sys_open_trace file_err .append w, h]
      simp [trace_close, trace_dup2]
  · split <;> rename_i h
    · rw [← sys_open_trace, h]
    · rw [← sys_open_trace file_err .trunc w, h]
      simp [trace_close, trace_dup2]

theorem redirect_output_ok (k : Consts) (command : simple_command_t) (w : World)
    (file_out : String) (hout : command.out = some file_out)
    (hopen : file_out ∉ w.unopenable) :
    (redirect_output k command w).1 = false := by
  unfold redirect_output
  rw [hout]
  dsimp only
  split_ifs with hc
  · have := sys_open_ok file_out .append w hopen
    split <;> rename_i h
    · rw [h] at this; simp at this
    · rfl
  · have := sys_open_ok file_out .trunc w hopen
    split <;> rename_i h
    · rw [h] at this; simp at this
    · rfl

/-- With no input redirection and two different, openable write targets,
`check_redirect` opens the output file in append mode exactly when `io_flags`
equals `IO_OUT_APPEND` and the error file in append mode exactly when
`io_flags` equals `IO_ERR_APPEND`. -/
theorem check_redirect_out_err_trace (k : Consts) (command : simple_command_t) (w : World)
    (file_out file_err : String) (hin : command.in_ = none)
    (hout : command.out = some file_out) (herr : command.err = some file_err)
    (hne : file_out ≠ file_err) (hopen : file_out ∉ w.unopenable) :
    (check_redirect k command w).2.trace =
      w.trace ++
        [.opened file_out (if command.io_flags = k.IO_OUT_APPEND then .append else .trunc),
         .opened file_err (if command.io_flags = k.IO_ERR_APPEND then .append else .trunc)] := by
  have h1 : redirect_input command w = (false, w) := by
    unfold redirect_input
    rw [hin]
  have h2 := redirect_output_ok k command w file_out hout hopen
  have h3 := redirect_output_trace k command w file_out hout
  have hne2 : command.out ≠ some file_err := by
    rw [hout]
    intro e
    exact hne (Option.some.inj e)
  unfold check_redirect
  rw [h1]
  dsimp only
  split
  · rename_i w2 h
    rw [h] at h2
    cases h2
  · rename_i w2 h
    rw [h] at h3
    rw [redirect_error_trace k command w2 file_err herr hne2, h3]
    simp

/-- C8: `check_redirect` does not honour the two append flags independently.
With the flag values of the sample constants and `io_flags` holding both
flags, two different write targets are both opened in truncate mode; and
whatever the constants and `io_flags` are, both targets are opened in append
mode only if `IO_OUT_APPEND` and `IO_ERR_APPEND` are the same value. -/
theorem check_redirect_append_flags :
    (check_redirect k0 ⟨"ls", [], none, some "out.txt", some "err.txt", 3⟩ w0).2.trace =
        [.opened "out.txt" .trunc, .opened "err.txt" .trunc] ∧
      ∀ (k : Consts) (io_flags : Int),
        (check_redirect k ⟨"ls", [], none, some "out.txt", some "err.txt", io_flags⟩ w0).2.trace
            = [.opened "out.txt" .append, .opened "err.txt" .append] →
          k.IO_OUT_APPEND = k.IO_ERR_APPEND := by
  refine ⟨by decide, ?_⟩
  intro k io_flags h
  rw [check_redirect_out_err_trace k _ w0 "out.txt" "err.txt" rfl rfl rfl (by decide)
    (by decide)] at h
  simp only [w0, List.nil_append, List.cons.injEq, Event.opened.injEq, true_and,
    and_true] at h
  obtain ⟨ho, he⟩ := h
  split_ifs at ho he with h1 h2
  exact h1.symm.trans h2

/-! ## The built-in `cd` -/

theorem get_fd_nil (m : Nat) : get_fd [] m = none := by
  simp [get_fd]

theorem get_fd_cons_zero (h : Option Stream) (t : List (Option Stream)) :
    get_fd (h :: t) 0 = h := by
  simp [get_fd]

theorem get_fd_cons_succ (h : Option Stream) (t : List (Option Stream)) (m : Nat) :
    get_fd (h :: t) (m + 1) = get_fd t m := by
  simp [get_fd]

theorem get_fd_set_fd (fds : List (Option Stream)) (n : Nat) (s : Option Stream) (m : Nat) :
    get_fd (set_fd fds n s) m = if m = n then s else get_fd fds m := by
  induction fds generalizing n m with
  | nil =>
    induction n generalizing m with
    | zero =>
      cases m with
      | zero => simp [set_fd, get_fd_cons_zero]
      | succ m => simp [set_fd, get_fd_cons_succ, get_fd_nil]
    | succ n ih =>
      cases m with
      | zero => simp [set_fd, get_fd_cons_zero, get_fd_nil]
      | succ m => simp [set_fd, get_fd_cons_succ, ih, get_fd_nil]
  | cons h t ih =>
    cases n with
    | zero =>
      cases m with
      | zero => simp [set_fd, get_fd_cons_zero]
      | succ m => simp [set_fd, get_fd_cons_succ]
    | succ n =>
      cases m with
      | zero => simp [set_fd, get_fd_cons_zero]
      | succ m => simp [set_fd, get_fd_cons_succ, ih]

theorem get_fd_lowest_free (fds : List (Option Stream)) :
    get_fd fds (lowest_free fds) = none := by
  induction fds with
  | nil => simp [lowest_free, get_fd_nil]
  | cons h t ih =>
    cases h with
    | none => simp [lowest_free, get_fd_cons_zero]
    | some s => simp [lowest_free, get_fd_cons_succ, ih]

theorem get_fd_close (f : Nat) (w : World) (m : Nat) :
    get_fd (close (some f) w).fds m = if m = f then none else get_fd w.fds m := by
  simp [close, get_fd_set_fd]

theorem get_fd_dup2 (o n : Nat) (w : World) (s : Stream) (h : get_fd w.fds o = some s)
    (m : Nat) :
    get_fd (dup2 (some o) n w).fds m = if m = n then some s else get_fd w.fds m := by
  simp [dup2, h, get_fd_set_fd]

theorem dup_open (fd : Nat) (w : World) (s : Stream) (h : get_fd w.fds fd = some s) :
    dup fd w = (some (lowest_free w.fds),
      { w with fds := set_fd w.fds (lowest_free w.fds) (some s) }) := by
  simp [dup, h]

theorem sys_open_fds (path : String) (mode : OpenMode) (w : World) :
    ((sys_open path mode w).1 = none ∧ (sys_open path mode w).2.fds = w.fds) ∨
      ((sys_open path mode w).1 = some (lowest_free w.fds) ∧
        (sys_open path mode w).2.fds =
          set_fd w.fds (lowest_free w.fds) (some (.file path mode))) := by
  unfold sys_open
  dsimp only
  split
  · left; exact ⟨rfl, rfl⟩
  · right; exact ⟨rfl, rfl⟩

/-- Opening a file, putting it on one of the descriptors 0, 1, 2 and closing
the descriptor it was opened on leaves the descriptors from 3 on alone. -/
theorem open_dup2_close_fds (path : String) (mode : OpenMode) (t : Nat) (ht : t < 3)
    (w : World) (m : Nat) (hm : 3 ≤ m) :
    get_fd (close (sys_open path mode w).1
      (dup2 (sys_open path mode w).1 t (sys_open path mode w).2)).fds m = get_fd w.fds m := by
  rcases sys_open_fds path mode w with ⟨h1, h2⟩ | ⟨h1, h2⟩
  · rw [h1]
    simp [close, dup2, h2]
  · rw [h1]
    have hx : get_fd (sys_open path mode w).2.fds (lowest_free w.fds) =
        some (.file path mode) := by
      rw [h2, get_fd_set_fd]
      simp
    rw [get_fd_close, get_fd_dup2 _ _ _ _ hx, h2, get_fd_set_fd]
    have hfree := get_fd_lowest_free w.fds
    by_cases hmx : m = lowest_free w.fds
    · simp [hmx, hfree]
    · have : m ≠ t := by omega
      simp [hmx, this]

theorem above3_refl (w : World) : Above3 w w := fun _ _ => rfl

theorem above3_trans {w1 w2 w3 : World} (h12 : Above3 w1 w2) (h23 : Above3 w2 w3) :
    Above3 w1 w3 :=
  fun m hm => (h23 m hm).trans (h12 m hm)

theorem above3_open_stage (path : String) (mode : OpenMode) (t : Nat) (ht : t < 3)
    (w : World) :
    Above3 w (match sys_open path mode w with
      | (none, w) => (true, w)
      | (some fd, w) => (false, close (some fd) (dup2 (some fd) t w))).2 := by
  intro m hm
  have h := open_dup2_close_fds path mode t ht w m hm
  split <;> rename_i h1 <;> rw [h1] at h
  · simpa [close, dup2] using h
  · exact h

theorem above3_redirect_input (command : simple_command_t) (w : World) :
    Above3 w (redirect_input command w).2 := by
  unfold redirect_input
  split
  · exact above3_refl w
  · exact above3_open_stage _ _ 0 (by omega) w

theorem above3_redirect_output (k : Consts) (command : simple_command_t) (w : World) :
    Above3 w (redirect_output k command w).2 := by
  unfold redirect_output
  split
  · exact above3_refl w
  · split_ifs
    · exact above3_open_stage _ _ 1 (by omega) w
    · exact above3_open_stage _ _ 1 (by omega) w

theorem above3_redirect_error (k : Consts) (command : simple_command_t) (w : World) :
    Above3 w (redirect_error k command w).2 := by
  unfold redirect_error
  split
  · exact above3_refl w
  · split_ifs
    · intro m hm
      simp only [dup2]
      split
      · rfl
      · simp only [get_fd_set_fd]
        have : m ≠ STDERR_FILENO := by simp [STDERR_FILENO]; omega
        simp [this]
    · exact above3_open_stage _ _ 2 (by omega) w
    · exact above3_open_stage _ _ 2 (by omega) w

theorem above3_check_redirect (k : Consts) (command : simple_command_t) (w : World) :
    Above3 w (check_redirect k command w).2 := by
  unfold check_redirect
  have h1 := above3_redirect_input command w
  split
  · rename_i w1 h
    rw [h] at h1
    exact h1
  · rename_i w1 h
    rw [h] at h1
    have h2 := above3_redirect_output k command w1
    split
    · rename_i w2 h'
      rw [h'] at h2
      exact above3_trans h1 h2
    · rename_i w2 h'
      rw [h'] at h2
      exact above3_trans h1 (above3_trans h2 (above3_redirect_error k command w2))
theorem chdir_fds (path : String) (w : World) : (chdir path w).2.fds = w.fds := by
  unfold chdir
  dsimp only
  split <;> rfl

theorem shell_cd_tail_fds (path : String) (w : World) :
    (match chdir path w with
      | (true, w) => (true, fprintf_stderr "Cannot change directory\n" w)
      | (false, w) => (false, w)).2.fds = w.fds := by
  have h := chdir_fds path w
  split <;> rename_i h1 <;> rw [h1] at h <;> exact h

/-- The last nine calls of `shell_cd` on a table whose descriptors `a`, `b`
and `c`, all above 2, hold the saved streams. -/
theorem restore_fds (w : World) (a b c : Nat) (s0 s1 s2 : Stream)
    (ha3 : 3 ≤ a) (hb3 : 3 ≤ b) (hc3 : 3 ≤ c)
    (ha : get_fd w.fds a = some s0) (hb : get_fd w.fds b = some s1)
    (hc : get_fd w.fds c = some s2) (m : Nat) :
    get_fd (close (some c) (close (some b) (close (some a)
      (dup2 (some c) STDERR_FILENO (dup2 (some b) STDOUT_FILENO (dup2 (some a) STDIN_FILENO
        (close (some STDERR_FILENO) (close (some STDOUT_FILENO)
          (close (some STDIN_FILENO) w))))))))).fds m =
      if m = c ∨ m = b ∨ m = a then none
      else if m = 0 then some s0
      else if m = 1 then some s1
      else if m = 2 then some s2
      else get_fd w.fds m := by
  simp only [STDIN_FILENO, STDOUT_FILENO, STDERR_FILENO]
  have e0 : ∀ n, get_fd (close (some 2) (close (some 1) (close (some 0) w))).fds n =
      if n = 2 ∨ n = 1 ∨ n = 0 then none else get_fd w.fds n := by
    intro n
    simp only [get_fd_close]
    split_ifs <;> simp_all
  have ha' : get_fd (close (some 2) (close (some 1) (close (some 0) w))).fds a = some s0 := by
    rw [e0, if_neg (by omega), ha]
  have e1 := get_fd_dup2 a 0 _ s0 ha'
  have hb' : get_fd (dup2 (some a) 0
      (close (some 2) (close (some 1) (close (some 0) w)))).fds b = some s1 := by
    rw [e1, if_neg (by omega), e0, if_neg (by omega), hb]
  have e2 := get_fd_dup2 b 1 _ s1 hb'
  have hc' : get_fd (dup2 (some b) 1 (dup2 (some a) 0
      (close (some 2) (close (some 1) (close (some 0) w))))).fds c = some s2 := by
    rw [e2, if_neg (by omega), e1, if_neg (by omega), e0, if_neg (by omega), hc]
  have e3 := get_fd_dup2 c 2 _ s2 hc'
  simp only [get_fd_close, e3, e2, e1, e0]
  by_cases h1 : m = c
  · simp [h1]
  by_cases h2 : m = b
  · simp [h2]
  by_cases h3 : m = a
  · simp [h3]
  simp only [h1, h2, h3, if_false, or_self]
  by_cases h4 : m = 2
  · subst h4; simp
  by_cases h5 : m = 1
  · subst h5; simp
  by_cases h6 : m = 0
  · subst h6; simp
  simp [h4, h5, h6]
theorem shell_cd_unfold (k : Consts) (command : simple_command_t) (w : World)
    (hp : command.params.length = 1)
    (hr : (check_redirect k command
      (dup STDERR_FILENO (dup STDOUT_FILENO (dup STDIN_FILENO w).2).2).2).1 = false) :
    (shell_cd k command w).2 =
      close (dup STDERR_FILENO (dup STDOUT_FILENO (dup STDIN_FILENO w).2).2).1
        (close (dup STDOUT_FILENO (dup STDIN_FILENO w).2).1
          (close (dup STDIN_FILENO w).1
            (dup2 (dup STDERR_FILENO (dup STDOUT_FILENO (dup STDIN_FILENO w).2).2).1
              STDERR_FILENO
              (dup2 (dup STDOUT_FILENO (dup STDIN_FILENO w).2).1 STDOUT_FILENO
                (dup2 (dup STDIN_FILENO w).1 STDIN_FILENO
                  (close (some STDERR_FILENO) (close (some STDOUT_FILENO)
                    (close (some STDIN_FILENO)
                      (match chdir (command.params.headD "")
                          (check_redirect k command
                            (dup STDERR_FILENO
                              (dup STDOUT_FILENO (dup STDIN_FILENO w).2).2).2).2 with
                        | (true, w) => (true, fprintf_stderr "Cannot change directory\n" w)
                        | (false, w) => (false, w)).2)))))))) := by
  unfold shell_cd
  simp only [hp]
  rw [if_neg (by decide)]
  cases hcr : check_redirect k command
      (dup STDERR_FILENO (dup STDOUT_FILENO (dup STDIN_FILENO w).2).2).2 with
  | mk b w4 =>
    rw [hcr] at hr
    simp only at hr
    subst hr
    rfl

theorem ne_of_get_fd {fds : List (Option Stream)} {x y : Nat} {s : Stream}
    (hx : get_fd fds x = some s) (hy : get_fd fds y = none) : x ≠ y := by
  intro e
  rw [e, hy] at hx
  cases hx

/-- When its redirections open, `shell_cd` leaves every descriptor as it found
it, whether the directory change succeeds or not: the standard streams are
put back and the saved duplicates are closed. -/
theorem shell_cd_restores (k : Consts) (command : simple_command_t) (w : World)
    (s0 s1 s2 : Stream) (hp : command.params.length = 1)
    (h0 : get_fd w.fds STDIN_FILENO = some s0) (h1 : get_fd w.fds STDOUT_FILENO = some s1)
    (h2 : get_fd w.fds STDERR_FILENO = some s2)
    (hr : (check_redirect k command
      (dup STDERR_FILENO (dup STDOUT_FILENO (dup STDIN_FILENO w).2).2).2).1 = false)
    (m : Nat) :
    get_fd (shell_cd k command w).2.fds m = get_fd w.fds m := by
  have fa := get_fd_lowest_free w.fds
  have d0 := dup_open STDIN_FILENO w s0 h0
  have g1 : ∀ n, get_fd (dup STDIN_FILENO w).2.fds n =
      if n = lowest_free w.fds then some s0 else get_fd w.fds n := by
    intro n; rw [d0]; exact get_fd_set_fd _ _ _ _
  have h1' : get_fd (dup STDIN_FILENO w).2.fds STDOUT_FILENO = some s1 := by
    rw [g1, if_neg (ne_of_get_fd h1 fa)]
    exact h1
  have fb := get_fd_lowest_free (dup STDIN_FILENO w).2.fds
  have d1 := dup_open STDOUT_FILENO (dup STDIN_FILENO w).2 s1 h1'
  have g2 : ∀ n, get_fd (dup STDOUT_FILENO (dup STDIN_FILENO w).2).2.fds n =
      if n = lowest_free (dup STDIN_FILENO w).2.fds then some s1
      else get_fd (dup STDIN_FILENO w).2.fds n := by
    intro n; rw [d1]; exact get_fd_set_fd _ _ _ _
  have h2' : get_fd (dup STDOUT_FILENO (dup STDIN_FILENO w).2).2.fds STDERR_FILENO
      = some s2 := by
    have h2w1 : get_fd (dup STDIN_FILENO w).2.fds STDERR_FILENO = some s2 := by
      rw [g1, if_neg (ne_of_get_fd h2 fa)]
      exact h2
    rw [g2, if_neg (ne_of_get_fd h2w1 fb)]
    exact h2w1
  have fc := get_fd_lowest_free (dup STDOUT_FILENO (dup STDIN_FILENO w).2).2.fds
  have d2 := dup_open STDERR_FILENO (dup STDOUT_FILENO (dup STDIN_FILENO w).2).2 s2 h2'
  have g3 : ∀ n, get_fd (dup STDERR_FILENO (dup STDOUT_FILENO (dup STDIN_FILENO w).2).2).2.fds n =
      if n = lowest_free (dup STDOUT_FILENO (dup STDIN_FILENO w).2).2.fds then some s2
      else get_fd (dup STDOUT_FILENO (dup STDIN_FILENO w).2).2.fds n := by
    intro n; rw [d2]; exact get_fd_set_fd _ _ _ _
  generalize ha : lowest_free w.fds = a at *
  generalize hb : lowest_free (dup STDIN_FILENO w).2.fds = b at *
  generalize hc : lowest_free (dup STDOUT_FILENO (dup STDIN_FILENO w).2).2.fds = c at *

  have e0 : (dup STDIN_FILENO w).1 = some a := by rw [d0]
  have e1 : (dup STDOUT_FILENO (dup STDIN_FILENO w).2).1 = some b := by rw [d1]
  have e2 : (dup STDERR_FILENO (dup STDOUT_FILENO (dup STDIN_FILENO w).2).2).1 = some c := by
    rw [d2]
  -- the three saved descriptors are free in `w`, distinct and above 2
  have hba : b ≠ a := by
    intro e
    rw [e, g1, if_pos rfl] at fb
    cases fb
  have fb' : get_fd w.fds b = none := by
    rw [g1, if_neg hba] at fb
    exact fb
  have hcb : c ≠ b := by
    intro e
    rw [e, g2, if_pos rfl] at fc
    cases fc
  have hca : c ≠ a := by
    intro e
    rw [e, g2, if_neg hba.symm, g1, if_pos rfl] at fc
    cases fc
  have fc' : get_fd w.fds c = none := by
    rw [g2, if_neg hcb, g1, if_neg hca] at fc
    exact fc
  simp only [STDIN_FILENO, STDOUT_FILENO, STDERR_FILENO] at h0 h1 h2
  have ha3 : 3 ≤ a := by
    have := ne_of_get_fd h0 fa
    have := ne_of_get_fd h1 fa
    have := ne_of_get_fd h2 fa
    omega
  have hb3 : 3 ≤ b := by
    have := ne_of_get_fd h0 fb'
    have := ne_of_get_fd h1 fb'
    have := ne_of_get_fd h2 fb'
    omega
  have hc3 : 3 ≤ c := by
    have := ne_of_get_fd h0 fc'
    have := ne_of_get_fd h1 fc'
    have := ne_of_get_fd h2 fc'
    omega
  -- the descriptors from 3 on when the streams are put back
  have habove : ∀ n, 3 ≤ n →
      get_fd (match chdir (command.params.headD "")
          (check_redirect k command
            (dup STDERR_FILENO (dup STDOUT_FILENO (dup STDIN_FILENO w).2).2).2).2 with
        | (true, w) => (true, fprintf_stderr "Cannot change directory\n" w)
        | (false, w) => (false, w)).2.fds n =
        if n = c then some s2 else if n = b then some s1 else if n = a then some s0
        else get_fd w.fds n := by
    intro n hn
    rw [shell_cd_tail_fds, above3_check_redirect k command _ n hn, g3, g2, g1]
  rw [shell_cd_unfold k command w hp hr, e0, e1, e2,
    restore_fds _ a b c s0 s1 s2 ha3 hb3 hc3
      (by rw [habove a ha3, if_neg hca.symm, if_neg hba.symm, if_pos rfl])
      (by rw [habove b hb3, if_neg hcb.symm, if_pos rfl])
      (by rw [habove c hc3, if_pos rfl])]
  by_cases m1 : m = c
  · simp [m1, fc']
  by_cases m2 : m = b
  · simp [m2, fb']
  by_cases m3 : m = a
  · simp [m3, fa]
  by_cases m4 : m = 0
  · subst m4; simp [m1, m2, m3, h0]
  by_cases m5 : m = 1
  · subst m5; simp [m1, m2, m3, h1]
  by_cases m6 : m = 2
  · subst m6; simp [m1, m2, m3, h2]
  simp only [m1, m2, m3, m4, m5, m6, or_self, if_false]
  rw [habove m (by omega), if_neg m1, if_neg m2, if_neg m3]

/-- C9: when a redirection of `cd` cannot be opened, `shell_cd` returns early:
here the output redirection was applied before the error redirection
failed, so on return standard output refers to `out.txt` instead of the
terminal, and the three saved duplicates (descriptors 3, 4 and 5) are
still open. -/
theorem shell_cd_redirect_failure :
    (shell_cd k0 ⟨"cd", ["/tmp"], none, some "out.txt", some "/missing", 0⟩ w0).1 = true ∧
      get_fd w0.fds STDOUT_FILENO = some (.tty 1) ∧
      get_fd (shell_cd k0 ⟨"cd", ["/tmp"], none, some "out.txt", some "/missing", 0⟩ w0).2.fds
          STDOUT_FILENO = some (.file "out.txt" .trunc) ∧
      get_fd (shell_cd k0 ⟨"cd", ["/tmp"], none, some "out.txt", some "/missing", 0⟩ w0).2.fds
          3 = some (.tty 0) ∧
      get_fd (shell_cd k0 ⟨"cd", ["/tmp"], none, some "out.txt", some "/missing", 0⟩ w0).2.fds
          4 = some (.tty 1) ∧
      get_fd (shell_cd k0 ⟨"cd", ["/tmp"], none, some "out.txt", some "/missing", 0⟩ w0).2.fds
          5 = some (.tty 2) ∧
      (shell_cd k0 ⟨"cd", ["/tmp"], none, some "out.txt", some "/missing", 0⟩ w0).2.cwd
          = "/home" := by
  decide

/-- On the two other outcomes the streams are put back: with redirections
that open, `cd` to a directory that exists or not leaves descriptors 0, 1
and 2 as they were and descriptors 3, 4 and 5 closed. -/
theorem shell_cd_restores_sample :
    (shell_cd k0 ⟨"cd", ["/tmp"], none, some "out.txt", some "err.txt", 0⟩ w0).1 = false ∧
      (shell_cd k0 ⟨"cd", ["/tmp"], none, some "out.txt", some "err.txt", 0⟩ w0).2.fds =
        [some (.tty 0), some (.tty 1), some (.tty 2), none, none, none, none] ∧
      (shell_cd k0 ⟨"cd", ["/nowhere"], none, some "out.txt", some "err.txt", 0⟩ w0).1
        = true ∧
      (shell_cd k0 ⟨"cd", ["/nowhere"], none, some "out.txt", some "err.txt", 0⟩ w0).2.fds =
        [some (.tty 0), some (.tty 1), some (.tty 2), none, none, none, none] := by
  decide

/-! ## Known commands and the generic launch path -/

theorem frame_refl (w : World) : Frame w w := ⟨rfl, rfl, rfl, rfl⟩

theorem frame_trans {w1 w2 w3 : World} (h12 : Frame w1 w2) (h23 : Frame w2 w3) :
    Frame w1 w3 :=
  ⟨h23.1.trans h12.1, h23.2.1.trans h12.2.1, h23.2.2.1.trans h12.2.2.1,
    h23.2.2.2.trans h12.2.2.2⟩

theorem frame_sys_open (path : String) (mode : OpenMode) (w : World) :
    Frame w (sys_open path mode w).2 := by
  unfold sys_open
  dsimp only
  split <;> exact ⟨rfl, rfl, rfl, rfl⟩

theorem frame_dup2 (old : Option Nat) (new : Nat) (w : World) : Frame w (dup2 old new w) := by
  unfold dup2
  split
  · exact frame_refl w
  · split
    · exact frame_refl w
    · exact ⟨rfl, rfl, rfl, rfl⟩

theorem frame_close (fd : Option Nat) (w : World) : Frame w (close fd w) := by
  unfold close
  split
  · exact frame_refl w
  · exact ⟨rfl, rfl, rfl, rfl⟩

theorem frame_redirect_input (command : simple_command_t) (w : World) :
    Frame w (redirect_input command w).2 := by
  unfold redirect_input
  split
  · exact frame_refl w
  · rename_i file_in _
    have := frame_sys_open file_in .rdonly w
    split <;> rename_i h <;> rw [h] at this
    · exact this
    · exact frame_trans this (frame_trans (frame_dup2 _ _ _) (frame_close _ _))

theorem frame_redirect_output (k : Consts) (command : simple_command_t) (w : World) :
    Frame w (redirect_output k command w).2 := by
  unfold redirect_output
  split
  · exact frame_refl w
  · rename_i file_out _
    have ha := frame_sys_open file_out .append w
    have ht := frame_sys_open file_out .trunc w
    split <;> rename_i h <;> split at h <;> (first | rw [h] at ha | rw [h] at ht)
    · exact ha
    · exact ht
    · exact frame_trans ha (frame_trans (frame_dup2 _ _ _) (frame_close _ _))
    · exact frame_trans ht (frame_trans (frame_dup2 _ _ _) (frame_close _ _))

theorem frame_redirect_error (k : Consts) (command : simple_command_t) (w : World) :
    Frame w (redirect_error k command w).2 := by
  unfold redirect_error
  split
  · exact frame_refl w
  · rename_i file_err _
    split
    · exact frame_dup2 _ _ _
    · have ha := frame_sys_open file_err .append w
      have ht := frame_sys_open file_err .trunc w
      split <;> rename_i h <;> split at h <;> (first | rw [h] at ha | rw [h] at ht)
      · exact ha
      · exact ht
      · exact frame_trans ha (frame_trans (frame_dup2 _ _ _) (frame_close _ _))
      · exact frame_trans ht (frame_trans (frame_dup2 _ _ _) (frame_close _ _))

theorem frame_check_redirect (k : Consts) (command : simple_command_t) (w : World) :
    Frame w (check_redirect k command w).2 := by
  unfold check_redirect
  have h1 := frame_redirect_input command w
  split
  · rename_i w1 h
    rw [h] at h1
    exact h1
  · rename_i w1 h
    rw [h] at h1
    have h2 := frame_redirect_output k command w1
    split
    · rename_i w2 h'
      rw [h'] at h2
      exact frame_trans h1 h2
    · rename_i w2 h'
      rw [h'] at h2
      exact frame_trans h1 (frame_trans h2 (frame_redirect_error k command w2))

theorem frame_child_world (w : World) : Frame w (child_world w) := ⟨rfl, rfl, rfl, rfl⟩

theorem search_frame (w1 w2 : World) (h : Frame w1 w2) (file : String) (dirs : List String) :
    search w2 file dirs = search w1 file dirs := by
  induction dirs with
  | nil => rfl
  | cons d ds ih => simp only [search, h.1, h.2.1, ih]

theorem execvp_frame (w1 w2 : World) (h : Frame w1 w2) (file : String) (argv : List String) :
    (execvp file argv w2).1 = (execvp file argv w1).1 := by
  unfold execvp
  dsimp only
  split
  · simp only [World.log, h.1, h.2.1]
  · have hs : search_path (w2.log (.execvp file argv)) =
        search_path (w1.log (.execvp file argv)) := by
      simp only [search_path, World.log, h.2.2.1]
    simp only [hs]
    exact search_frame (w1.log (.execvp file argv)) (w2.log (.execvp file argv))
      ⟨h.1, h.2.1, h.2.2.1, h.2.2.2⟩ _ _

theorem execv_frame (w1 w2 : World) (h : Frame w1 w2) (path : String) (argv : List String) :
    (execv path argv w2).1 = (execv path argv w1).1 := by
  unfold execv
  simp only [World.log, h.1, h.2.1]
theorem shell_run_command_eq_launch (k : Consts) (params : List String)
    (command : simple_command_t) (w : World) :
    shell_run_command k params command w = launch (generic_child k params command) w := rfl

theorem shell_execvp_eq_launch (file : String) (k : Consts) (params : List String)
    (command : simple_command_t) (w : World) :
    shell_execvp file k params command w =
      launch (known_child file none k params command) w := by
  unfold shell_execvp launch
  congr 1

theorem shell_pwd_eq_launch (k : Consts) (params : List String)
    (command : simple_command_t) (w : World) :
    shell_pwd k params command w =
      launch (known_child "pwd" (some "Cannot open redirection file\n") k params command)
        w := by
  unfold shell_pwd launch
  congr 1
theorem launch_status_congr (c1 c2 : World → WaitStatus × World) (w : World)
    (hs : (c1 (child_world w)).1 = (c2 (child_world w)).1) :
    (launch c1 w).1 = (launch c2 w).1 := by
  unfold launch
  by_cases hfk : w.forks.head? = some .failed
  · rw [fork_failed _ _ hfk, fork_failed _ _ hfk]
  · rw [fork_created _ _ hfk, fork_created _ _ hfk, hs]
    cases hw : w.waits with
    | nil =>
      simp only [wait, hw]
      split_ifs <;> rfl
    | cons r rest =>
      cases r <;> simp only [wait, hw]
      split_ifs <;> rfl

theorem launch_world_congr (c1 c2 : World → WaitStatus × World) (w : World)
    (hf : (c1 (child_world w)).2.fifos = (c2 (child_world w)).2.fifos) :
    (launch c1 w).2.untraced = (launch c2 w).2.untraced := by
  unfold launch
  by_cases hfk : w.forks.head? = some .failed
  · rw [fork_failed _ _ hfk, fork_failed _ _ hfk]
  · rw [fork_created _ _ hfk, fork_created _ _ hfk, hf]
    cases hw : w.waits with
    | nil =>
      simp only [wait, hw]
      split_ifs <;> rfl
    | cons r rest =>
      cases r <;> simp only [wait, hw]
      · split_ifs <;> rfl
      · rfl

theorem launch_failed (child : World → WaitStatus × World) (w : World)
    (hfk : w.forks.head? = some .failed) :
    launch child w = (1, { w with forks := w.forks.tail }) := by
  unfold launch
  rw [fork_failed _ _ hfk]

theorem launch_trace (child : World → WaitStatus × World) (w : World)
    (hfk : w.forks.head? ≠ some .failed) :
    (launch child w).2.trace = (child (child_world w)).2.trace := by
  unfold launch
  rw [fork_created _ _ hfk]
  cases hw : w.waits with
  | nil =>
    simp only [wait, hw]
    split_ifs <;> rfl
  | cons r rest =>
    cases r <;> simp only [wait, hw]
    split_ifs <;> rfl

theorem opensOnly_refl (w : World) : OpensOnly w w :=
  ⟨[], by simp, by simp⟩

theorem opensOnly_trans {w1 w2 w3 : World} (h12 : OpensOnly w1 w2) (h23 : OpensOnly w2 w3) :
    OpensOnly w1 w3 := by
  obtain ⟨t1, e1, n1⟩ := h12
  obtain ⟨t2, e2, n2⟩ := h23
  refine ⟨t1 ++ t2, by rw [e2, e1, List.append_assoc], ?_⟩
  intro e he
  rcases List.mem_append.mp he with h | h
  · exact n1 e h
  · exact n2 e h

theorem opensOnly_congr {w1 w2 w3 : World} (h : OpensOnly w1 w2) (h3 : w3.trace = w2.trace) :
    OpensOnly w1 w3 := by
  obtain ⟨t, e, n⟩ := h
  exact ⟨t, h3.trans e, n⟩

theorem opensOnly_sys_open (path : String) (mode : OpenMode) (w : World) :
    OpensOnly w (sys_open path mode w).2 :=
  ⟨[.opened path mode], sys_open_trace path mode w, by simp⟩

theorem opensOnly_open_stage (path : String) (mode : OpenMode) (t : Nat) (w : World) :
    OpensOnly w (match sys_open path mode w with
      | (none, w) => (true, w)
      | (some fd, w) => (false, close (some fd) (dup2 (some fd) t w))).2 := by
  have h := opensOnly_sys_open path mode w
  split <;> rename_i h1 <;> rw [h1] at h
  · exact h
  · exact opensOnly_congr h (by simp [trace_close, trace_dup2])

theorem opensOnly_redirect_input (command : simple_command_t) (w : World) :
    OpensOnly w (redirect_input command w).2 := by
  unfold redirect_input
  split
  · exact opensOnly_refl w
  · exact opensOnly_open_stage _ _ _ w

theorem opensOnly_redirect_output (k : Consts) (command : simple_command_t) (w : World) :
    OpensOnly w (redirect_output k command w).2 := by
  unfold redirect_output
  split
  · exact opensOnly_refl w
  · split_ifs
    · exact opensOnly_open_stage _ _ _ w
    · exact opensOnly_open_stage _ _ _ w

theorem opensOnly_redirect_error (k : Consts) (command : simple_command_t) (w : World) :
    OpensOnly w (redirect_error k command w).2 := by
  unfold redirect_error
  split
  · exact opensOnly_refl w
  · split_ifs
    · exact opensOnly_congr (opensOnly_refl w) (trace_dup2 _ _ _)
    · exact opensOnly_open_stage _ _ _ w
    · exact opensOnly_open_stage _ _ _ w

theorem opensOnly_check_redirect (k : Consts) (command : simple_command_t) (w : World) :
    OpensOnly w (check_redirect k command w).2 := by
  unfold check_redirect
  have h1 := opensOnly_redirect_input command w
  split
  · rename_i w1 h
    rw [h] at h1
    exact h1
  · rename_i w1 h
    rw [h] at h1
    have h2 := opensOnly_redirect_output k command w1
    split
    · rename_i w2 h'
      rw [h'] at h2
      exact opensOnly_trans h1 h2
    · rename_i w2 h'
      rw [h'] at h2
      exact opensOnly_trans h1 (opensOnly_trans h2 (opensOnly_redirect_error k command w2))

theorem execvp_world (file : String) (argv : List String) (w : World) :
    (execvp file argv w).2 = w.log (.execvp file argv) := by
  unfold execvp
  dsimp only
  split <;> rfl

theorem known_child_trace (file : String) (msg : Option String) (k : Consts)
    (params : List String) (command : simple_command_t) (cw : World) :
    (known_child file msg k params command cw).2.trace =
        (check_redirect k command cw).2.trace ++
          (if (check_redirect k command cw).1 then
            (match msg with
              | none => []
              | some m => [.stderr m])
           else [.execvp file params]) ∧
      (known_child file msg k params command cw).2.fifos =
        (check_redirect k command cw).2.fifos := by
  unfold known_child
  cases hc : check_redirect k command cw with
  | mk b cw1 =>
    cases b with
    | true => cases msg <;> simp [fprintf_stderr, World.log]
    | false =>
      have hp : execvp file params cw1 =
          ((execvp file params cw1).1, cw1.log (.execvp file params)) := by
        rw [← execvp_world]
      simp only
      rw [hp]
      cases (execvp file params cw1).1 <;> simp [World.log]

theorem generic_child_trace (k : Consts) (params : List String)
    (command : simple_command_t) (cw : World) :
    (generic_child k params command cw).2.trace =
        (check_redirect k command cw).2.trace ++
          generic_tail (params.headD "") params (check_redirect k command cw).1
            (execv (params.headD "") params (check_redirect k command cw).2).1.isNone ∧
      (generic_child k params command cw).2.fifos =
        (check_redirect k command cw).2.fifos := by
  unfold generic_child generic_tail
  cases hc : check_redirect k command cw with
  | mk b cw1 =>
    cases b with
    | true => simp [fprintf_stderr, World.log]
    | false =>
      have hv : execv (params.headD "") params cw1 =
          ((execv (params.headD "") params cw1).1, cw1.log (.execv (params.headD "") params)) :=
        rfl
      simp only
      rw [hv]
      cases (execv (params.headD "") params cw1).1 <;> simp [fprintf_stderr, World.log]

theorem known_child_status (file : String) (msg : Option String) (k : Consts)
    (params : List String) (command : simple_command_t) (w cw : World) (hcw : Frame w cw)
    (hexec : (execvp file params w).1 = (execv (params.headD "") params w).1) :
    (known_child file msg k params command cw).1 = (generic_child k params command cw).1 := by
  have hfr := frame_trans hcw (frame_check_redirect k command cw)
  unfold known_child generic_child
  cases hc : check_redirect k command cw with
  | mk b cw1 =>
    rw [hc] at hfr
    cases b with
    | true => rfl
    | false =>
      have h1 := execvp_frame w cw1 hfr file params
      have h2 := execv_frame w cw1 hfr (params.headD "") params
      have h3 : (execvp file params cw1).1 = (execv (params.headD "") params cw1).1 := by
        rw [h1, h2, hexec]
      have hv : execv (params.headD "") params cw1 =
          ((execv (params.headD "") params cw1).1, cw1.log (.execv (params.headD "") params)) :=
        rfl
      have hp : execvp file params cw1 =
          ((execvp file params cw1).1, cw1.log (.execvp file params)) := by
        rw [← execvp_world]
      simp only
      rw [hv, hp, h3]
      cases (execv (params.headD "") params cw1).1 <;> rfl

theorem parse_simple_known (k : Consts) (s : simple_command_t) (level : Nat) (w : World)
    (h : s.verb ∈ known_commands) :
    parse_simple k s level w =
      launch (known_child s.verb
        (if s.verb = "pwd" then some "Cannot open redirection file\n" else none)
        k (get_argv s) s) w := by
  simp only [known_commands, List.mem_cons, List.mem_singleton, List.not_mem_nil,
    or_false] at h
  rcases h with h | h | h | h | h | h | h | h | h | h | h | h | h | h | h | h | h <;>
    simp only [parse_simple, h] <;>
    first
      | exact shell_pwd_eq_launch _ _ _ _
      | exact shell_execvp_eq_launch _ _ _ _ _

theorem known_tail_eq (verb : String) (argv : List String) (b : Bool) :
    (if b then
      (match (if verb = "pwd" then some "Cannot open redirection file\n" else none) with
        | none => []
        | some m => [Event.stderr m])
     else [Event.execvp verb argv]) = known_tail verb argv b := by
  unfold known_tail
  cases b <;> by_cases hv : verb = "pwd" <;> simp [hv]

theorem filter_known_tail (verb : String) (argv : List String) (b : Bool) :
    (known_tail verb argv b).filter is_fork_or_open = [] := by
  unfold known_tail
  cases b <;> by_cases hv : verb = "pwd" <;> simp [hv, is_fork_or_open]

theorem filter_generic_tail (verb : String) (argv : List String) (b e : Bool) :
    (generic_tail verb argv b e).filter is_fork_or_open = [] := by
  unfold generic_tail
  cases b <;> cases e <;> simp [is_fork_or_open]

/-- The traces of the two launch paths when `fork` creates the child: the
same `fork` and the same calls of `open`, followed by what is particular to
each path. -/
theorem known_generic_traces (k : Consts) (s : simple_command_t) (level : Nat) (w : World)
    (h : s.verb ∈ known_commands) (hfk : w.forks.head? ≠ some .failed) :
    ∃ opens, (∀ e ∈ opens, ∃ p m, e = Event.opened p m) ∧
      (check_redirect k s (child_world w)).2.trace = w.trace ++ (Event.fork :: opens) ∧
      (parse_simple k s level w).2.trace =
        w.trace ++ (Event.fork :: opens) ++
          known_tail s.verb (get_argv s) (check_redirect k s (child_world w)).1 ∧
      (shell_run_command k (get_argv s) s w).2.trace =
        w.trace ++ (Event.fork :: opens) ++
          generic_tail s.verb (get_argv s) (check_redirect k s (child_world w)).1
            (execv s.verb (get_argv s) w).1.isNone := by
  obtain ⟨opens, hop, hall⟩ := opensOnly_check_redirect k s (child_world w)
  have hcw : (child_world w).trace = w.trace ++ [Event.fork] := rfl
  have hcr : (check_redirect k s (child_world w)).2.trace = w.trace ++ (Event.fork :: opens) := by
    rw [hop, hcw]
    simp
  refine ⟨opens, hall, hcr, ?_, ?_⟩
  · rw [parse_simple_known k s level w h, launch_trace _ _ hfk,
      (known_child_trace _ _ _ _ _ _).1, known_tail_eq, hcr]
  · have hfr : Frame w (check_redirect k s (child_world w)).2 :=
      frame_trans (frame_child_world w) (frame_check_redirect k s (child_world w))
    have hex := execv_frame w _ hfr s.verb (get_argv s)
    have hhead : (get_argv s).headD "" = s.verb := rfl
    rw [shell_run_command_eq_launch, launch_trace _ _ hfk,
      (generic_child_trace _ _ _ _).1, hhead, hex, hcr]

/-- C10 (amended): for a recognised external command other than `true` and
`false`, whatever `fork`, the redirections, the program lookup and `wait`
do, `parse_simple` and `shell_run_command` on the same verb and argument
vector leave the same process state and make the same calls of `fork` and
`open`: none when `fork` fails, both then yielding 1; otherwise one `fork`
and the same calls of `open`, after which the known path calls `execvp` on
the command name and prints nothing (for `pwd`, one diagnostic when a
redirection does not open), where `shell_run_command` calls `execv` on
`argv[0]` and prints a diagnostic when a redirection does not open or the
program is not found.  When `execvp` on the name and `execv` on `argv[0]`
have the same outcome, the two yield the same status.  `true` and `false`
yield 0 and 1 without any call. -/
theorem known_command_vs_generic (k : Consts) (s : simple_command_t) (level : Nat)
    (w : World) :
    (s.verb ∈ known_commands →
      (parse_simple k s level w).2.untraced =
          (shell_run_command k (get_argv s) s w).2.untraced ∧
        (parse_simple k s level w).2.trace.filter is_fork_or_open =
          (shell_run_command k (get_argv s) s w).2.trace.filter is_fork_or_open ∧
        (w.forks.head? = some .failed →
          parse_simple k s level w = (1, { w with forks := w.forks.tail }) ∧
            shell_run_command k (get_argv s) s w = (1, { w with forks := w.forks.tail })) ∧
        (w.forks.head? ≠ some .failed →
          ∃ opens, (∀ e ∈ opens, ∃ p m, e = Event.opened p m) ∧
            (check_redirect k s (child_world w)).2.trace =
              w.trace ++ (Event.fork :: opens) ∧
            (parse_simple k s level w).2.trace =
              w.trace ++ (Event.fork :: opens) ++
                known_tail s.verb (get_argv s) (check_redirect k s (child_world w)).1 ∧
            (shell_run_command k (get_argv s) s w).2.trace =
              w.trace ++ (Event.fork :: opens) ++
                generic_tail s.verb (get_argv s) (check_redirect k s (child_world w)).1
                  (execv s.verb (get_argv s) w).1.isNone) ∧
        ((execvp s.verb (get_argv s) w).1 = (execv s.verb (get_argv s) w).1 →
          (parse_simple k s level w).1 = (shell_run_command k (get_argv s) s w).1)) ∧
    (s.verb = "true" → parse_simple k s level w = (0, w)) ∧
    (s.verb = "false" → parse_simple k s level w = (1, w)) := by
  refine ⟨?_, ?_, ?_⟩
  · intro h
    refine ⟨?_, ?_, ?_, ?_, ?_⟩
    · rw [parse_simple_known k s level w h, shell_run_command_eq_launch]
      exact launch_world_congr _ _ w
        ((known_child_trace _ _ _ _ _ _).2.trans (generic_child_trace _ _ _ _).2.symm)
    · by_cases hfk : w.forks.head? = some .failed
      · rw [parse_simple_known k s level w h, shell_run_command_eq_launch,
          launch_failed _ _ hfk, launch_failed _ _ hfk]
      · obtain ⟨opens, -, -, h1, h2⟩ := known_generic_traces k s level w h hfk
        rw [h1, h2, List.filter_append, List.filter_append _ (generic_tail _ _ _ _),
          filter_known_tail, filter_generic_tail]
    · intro hfk
      rw [parse_simple_known k s level w h, shell_run_command_eq_launch,
        launch_failed _ _ hfk, launch_failed _ _ hfk]
      exact ⟨rfl, rfl⟩
    · exact known_generic_traces k s level w h
    · intro hexec
      rw [parse_simple_known k s level w h, shell_run_command_eq_launch]
      exact launch_status_congr _ _ w
        (known_child_status s.verb _ k (get_argv s) s w (child_world w)
          (frame_child_world w) hexec)
  · intro h
    simp [parse_simple, h]
  · intro h
    simp [parse_simple, h]

theorem known_command_vs_generic_witness :
    (parse_simple k0 ⟨"ls", ["-l"], none, some "out.txt", none, 0⟩ 1
        { w0 with cwd := "/bin" }).1 = 0 ∧
      (shell_run_command k0 ["ls", "-l"] ⟨"ls", ["-l"], none, some "out.txt", none, 0⟩
        { w0 with cwd := "/bin" }).1 = 0 ∧
      (parse_simple k0 ⟨"ls", ["-l"], none, some "out.txt", none, 0⟩ 1 w0).2.trace.filter
          is_fork_or_open =
        (shell_run_command k0 ["ls", "-l"] ⟨"ls", ["-l"], none, some "out.txt", none, 0⟩
          w0).2.trace.filter is_fork_or_open :=
  have h := (known_command_vs_generic k0 ⟨"ls", ["-l"], none, some "out.txt", none, 0⟩ 1
    { w0 with cwd := "/bin" }).1 (by decide)
  ⟨by decide, (h.2.2.2.2 (by decide)).symm.trans (by decide),
    ((known_command_vs_generic k0 ⟨"ls", ["-l"], none, some "out.txt", none, 0⟩ 1
      w0).1 (by decide)).2.1⟩

/-- The claim C10 as it is worded fails: with `ls` installed in `/bin` and
the shell in `/home`, `parse_simple` on `ls` runs the program found through
`PATH`, silently, and yields 0, where `shell_run_command` on the same verb
looks for `ls` in the working directory, prints a diagnostic and yields 1;
and `parse_simple` on `true` makes no call where `shell_run_command` forks. -/
theorem known_command_counterexample :
    parse_simple k0 ⟨"ls", [], none, none, none, 0⟩ 1 w0 =
        (0, { w0 with trace := [.fork, .execvp "ls" ["ls"]] }) ∧
      shell_run_command k0 ["ls"] ⟨"ls", [], none, none, none, 0⟩ w0 =
        (1, { w0 with trace :=
          [.fork, .execv "ls" ["ls"], .stderr "Execution failed for \x27ls\x27\n"] }) ∧
      parse_simple k0 ⟨"true", [], none, none, none, 0⟩ 1 w0 = (0, w0) ∧
      shell_run_command k0 ["true"] ⟨"true", [], none, none, none, 0⟩ w0 =
        (1, { w0 with trace :=
          [.fork, .execv "true" ["true"], .stderr "Execution failed for \x27true\x27\n"] }) := by
  decide

/-! ## The range of the statuses

The C code adds statuses in an `int`; the model adds them in `Int`.  The
two agree as long as the sums stay below `2 ^ 31`, which the bound below
guarantees for every tree with fewer than `2 ^ 23` leaves. -/

theorem wexitstatus_range (st : WaitStatus) : 0 ≤ WEXITSTATUS st ∧ WEXITSTATUS st ≤ 255 := by
  cases st with
  | exited code =>
    simp only [WEXITSTATUS]
    omega
  | signaled => simp [WEXITSTATUS]

theorem launch_range (child : World → WaitStatus × World) (w : World) :
    0 ≤ (launch child w).1 ∧ (launch child w).1 ≤ 255 := by
  unfold launch
  split
  · simp
  · split
    · simp
    · split_ifs
      · exact wexitstatus_range _
      · simp

theorem shell_execvp_range (file : String) (k : Consts) (params : List String)
    (command : simple_command_t) (w : World) :
    0 ≤ (shell_execvp file k params command w).1 ∧
      (shell_execvp file k params command w).1 ≤ 255 := by
  rw [shell_execvp_eq_launch]
  exact launch_range _ _

theorem parse_simple_range (k : Consts) (s : simple_command_t) (level : Nat) (w : World) :
    StatusRange k (parse_simple k s level w) := by
  simp only [parse_simple]
  refine ite_cases (StatusRange k) _ _ _ (fun _ => ?_) (fun _ => ?_)
  · right
    split <;> simp
  repeat' refine ite_cases (StatusRange k) _ _ _ (fun _ => ?_) (fun _ => ?_)
  all_goals first
    | exact Or.inl rfl
    | (right; unfold parse_assign; simp only; split <;> simp)
    | (right; rw [shell_pwd_eq_launch]; exact launch_range _ _)
    | (right; rw [shell_run_command_eq_launch]; exact launch_range _ _)
    | (right; simp)
    | exact Or.inr (shell_execvp_range _ _ _ _ _)

theorem run_in_parallel_range (cmd1 cmd2 : Nat → World → Int × World) (level : Nat)
    (w : World) :
    0 ≤ (run_in_parallel cmd1 cmd2 level w).1 ∧
      (run_in_parallel cmd1 cmd2 level w).1 ≤ 255 := by
  unfold run_in_parallel
  split
  · simp
  · split <;> simp

theorem run_on_pipe_range (cmd1 cmd2 : Nat → World → Int × World) (level : Nat)
    (w : World) :
    0 ≤ (run_on_pipe cmd1 cmd2 level w).1 ∧ (run_on_pipe cmd1 cmd2 level w).1 ≤ 255 := by
  unfold run_on_pipe
  split
  · simp
  · simp
  · split
    · simp
    · split
      · simp
      · simp only
        split_ifs
        · exact wexitstatus_range _
        · simp

theorem leaves_pos (t : command_t) : 1 ≤ leaves t := by
  induction t with
  | leaf s => simp [leaves]
  | node op a b iha ihb =>
    simp only [leaves]
    omega

/-- Every status is the sentinel or lies between 0 and 255 times the number
of leaves of the tree. -/
theorem parse_command_range (k : Consts) (t : command_t) :
    ∀ (level : Nat) (w : World),
      (parse_command k t level w).1 = k.SHELL_EXIT ∨
        (0 ≤ (parse_command k t level w).1 ∧
          (parse_command k t level w).1 ≤ 255 * (leaves t : Int)) := by
  induction t with
  | leaf s =>
    intro level w
    rw [parse_command]
    simpa [leaves, StatusRange] using parse_simple_range k s (level + 1) (w.log (.leaf s.verb))
  | node op a b iha ihb =>
    intro level w
    have hla : (1 : Int) ≤ leaves a := by exact_mod_cast leaves_pos a
    have hlb : (1 : Int) ≤ leaves b := by exact_mod_cast leaves_pos b
    have hA := iha (level + 1) w
    have hB := ihb (level + 1) (parse_command k a (level + 1) w).2
    simp only [leaves, Nat.cast_add]
    cases op with
    | OP_SEQUENTIAL =>
      rw [parse_command_seq]
      split_ifs with h1 h2
      · exact Or.inl h1
      · exact Or.inl h2
      · right
        rcases hA with hA | hA
        · exact absurd hA h1
        rcases hB with hB | hB
        · exact absurd hB h2
        simp only
        omega
    | OP_CONDITIONAL_NZERO =>
      rw [parse_command_nzero]
      split_ifs with h1 h0 h2
      · exact Or.inl h1
      · exact Or.inl h2
      · right
        rcases hA with hA | hA
        · exact absurd hA h1
        rcases hB with hB | hB
        · exact absurd hB h2
        simp only
        omega
      · right
        rcases hA with hA | hA
        · exact absurd hA h1
        simp only
        omega
    | OP_CONDITIONAL_ZERO =>
      rw [parse_command_zero]
      split_ifs with h1 h0 h2
      · exact Or.inl h1
      · exact Or.inl h2
      · right
        rcases hA with hA | hA
        · exact absurd hA h1
        rcases hB with hB | hB
        · exact absurd hB h2
        simp only
        omega
      · right
        rcases hA with hA | hA
        · exact absurd hA h1
        simp only
        omega
    | OP_PARALLEL =>
      right
      rw [parse_command]
      have := run_in_parallel_range (parse_command k a) (parse_command k b) (level + 1) w
      omega
    | OP_PIPE =>
      right
      rw [parse_command]
      have := run_on_pipe_range (parse_command k a) (parse_command k b) (level + 1) w
      omega
    | OP_DUMMY =>
      left
      rw [parse_command]

end MiniShell
